import Mathlib

/-!
Verification of `apply_tags.py` from the Libmaly repository.

The script is a one-shot source patcher: it loads a Rust source file into a
text buffer, applies four sequential rewriting stages to the buffer, and
writes the result back.  The Lean development below embeds the buffer
transformation (everything between the load and the final write) as a pure
function `applyTags : List Char → List Char`.  File I/O (the loader and the
writer) is outside the embedding.

Each Python `re.sub` call is embedded as a left-to-right scanner
(`subScan`): at every position the specific pattern's matcher is attempted;
on a match the replacement is emitted and scanning resumes after the match
(replacements are not rescanned), otherwise one character is copied and the
scan advances.  This is exactly Python's `re.sub` behaviour for patterns
that cannot match the empty string, which holds for every pattern in the
script (each starts with a nonempty literal).

The patterns themselves are sequences of literals joined by `.*?` (lazy,
with DOTALL), `\s*` (greedy) or `[^\n]*?`-style lazy pieces (the one
pattern without DOTALL).  Their backtracking semantics are embedded
faithfully:
  * `lit₁.*?lit₂lit₃` (DOTALL) matches at a position iff `lit₁` is there
    and the concatenation `lit₂ ++ lit₃` occurs afterwards; the lazy star
    takes the first such occurrence.
  * two stacked lazy stars (`lit₁.*?lit₂.*?lit₃`) backtrack with the outer
    star advancing last: see `searchFn`/`searchTs` and `searchTn`.
  * `\s*` followed by a literal starting with a non-space character
    matches exactly the maximal whitespace run (the greedy star backtracks
    from the maximal run, and no shorter run can be followed by the
    literal's non-space first character): see `wsCount`.
`\s` is embedded as the ASCII whitespace class, which is what occurs in the
target file.
-/

set_option linter.unusedVariables false

set_option maxRecDepth 100000

namespace LibmalyApplyTags

/-- ASCII whitespace, the characters `\s` matches in the target file. -/
def isWs (c : Char) : Bool :=
  c = ' ' || c = '\t' || c = '\n' || c = '\r' || c = '\x0b' || c = '\x0c'

/-- Length of the maximal leading whitespace run (the text a greedy `\s*`
consumes when followed by a literal starting with a non-space character). -/
def wsCount : List Char → Nat
  | [] => 0
  | c :: cs => if isWs c then wsCount cs + 1 else 0

/-- Index of the first occurrence of the literal `pat` in `s`
(`none` if absent). -/
def findLit (pat : List Char) : List Char → Option Nat
  | [] => if pat.isEmpty then some 0 else none
  | c :: cs =>
    if pat.isPrefixOf (c :: cs) then some 0
    else (findLit pat cs).map (fun i => i + 1)

/-- `pat` occurs as a substring of `s` (Python's `pat in s`). -/
def containsSub (pat s : List Char) : Bool := (findLit pat s).isSome

/-- Number of positions of `s` at which the literal `pat` occurs. -/
def countOcc (pat : List Char) : List Char → Nat
  | [] => 0
  | c :: cs => (if pat.isPrefixOf (c :: cs) then 1 else 0) + countOcc pat cs

/-- No occurrence of `pat` starts inside `s`, whatever text follows `s`:
no position of `s` carries a full occurrence of `pat`, and no nonempty
suffix of `s` is a prefix of `pat` (which would allow an occurrence to
straddle the boundary between `s` and the following text). -/
def noOccB (pat s : List Char) : Bool :=
  (List.range s.length).all fun i =>
    !(pat.isPrefixOf (s.drop i)) && !((s.drop i).isPrefixOf pat)

/-- Every position of `s` is decided by `s` alone: it either carries a full
occurrence of `pat` inside `s`, or can carry none whatever follows `s`. -/
def detB (pat s : List Char) : Bool :=
  (List.range s.length).all fun i =>
    pat.isPrefixOf (s.drop i) || !((s.drop i).isPrefixOf pat)

/-- Structural (single-pass) restatement of `noOccB`, cheap to evaluate. -/
def noOccR (pat : List Char) : List Char → Bool
  | [] => true
  | c :: cs => !(pat.isPrefixOf (c :: cs)) && !((c :: cs).isPrefixOf pat) && noOccR pat cs

/-- Structural (single-pass) restatement of `detB`, cheap to evaluate. -/
def detR (pat : List Char) : List Char → Bool
  | [] => true
  | c :: cs => (pat.isPrefixOf (c :: cs) || !((c :: cs).isPrefixOf pat)) && detR pat cs

/-- Python's `str.replace` for a nonempty pattern: replace every
(leftmost, non-overlapping) occurrence of `pat` by `r`.  (All patterns the
script passes to `str.replace` are nonempty.)  The recursion is paced by a
fuel argument so that the function reduces definitionally; `replaceAll`
supplies the buffer length as fuel, which is always sufficient
(`replaceAllF_fuel`). -/
def replaceAllF (pat r : List Char) : Nat → List Char → List Char
  | _, [] => []
  | 0, c :: cs => c :: cs
  | f + 1, c :: cs =>
    if pat.isPrefixOf (c :: cs) && !pat.isEmpty then
      r ++ replaceAllF pat r f ((c :: cs).drop pat.length)
    else
      c :: replaceAllF pat r f cs

def replaceAll (pat r s : List Char) : List Char := replaceAllF pat r s.length s

/-- Python's `re.sub` for a pattern that cannot match the empty string:
`m` attempts a match at the current position, returning the match length
and the capture data the replacement needs; `r` builds the replacement
from the whole match text and that data.  On a match the replacement is
emitted and the scan resumes after the matched text; otherwise one
character is copied.  (Every matcher below returns a positive length; the
`n = 0` guard only keeps the recursion well-founded.) -/
def subScanF {α : Type} (m : List Char → Option (Nat × α))
    (r : List Char → α → List Char) : Nat → List Char → List Char
  | _, [] => []
  | 0, c :: cs => c :: cs
  | f + 1, c :: cs =>
    match m (c :: cs) with
    | none => c :: subScanF m r f cs
    | some (n, a) =>
      if 1 ≤ n then
        r ((c :: cs).take n) a ++ subScanF m r f ((c :: cs).drop n)
      else
        c :: subScanF m r f cs

def subScan {α : Type} (m : List Char → Option (Nat × α))
    (r : List Char → α → List Char) (s : List Char) : List Char :=
  subScanF m r s.length s

/-! ### The string constants of `apply_tags.py`

Literal fragments of the regular expressions and replacement texts of the
script, each transcribed exactly.  Name index:
`A1s`/`Bs`/`Cs`/`TAGDECLs` — stage 1 (struct injector) literals and insertion;
`H2s`/`NLBs` — the `get_screenshots` header and the `(\n})` footer;
`L1s`/`L2s`/`L3s`/`RB1s` — the directory-guard literals of the inner
injection pattern; `INJs` — the injected loading preamble;
`SCs`/`FNs`/`TSs`/`LKUPs` — the construction-site pattern literals and the
rewrite template (the template is `LKUPs ++ ws ++ RB1s` where `ws` is the
captured `(\s*)` group); `SAVECs`/`SAVEs`/`ANCHs`/`NL1s` — stage 3's new
function text, its presence-guard marker, and the anchor;
`OKAs`/`TNs`/`RB2s`/`TINSs` — stage 4 (backfill) literals and insertion;
`TN2s` — the already-tagged literal of the script's final no-op `re.sub`. -/

def A1s : List Char := "pub struct Screenshot \x7b".data

def Bs : List Char := "pub timestamp: u64,".data

def Cs : List Char := "\n\x7d".data

def BCs : List Char := Bs ++ Cs

def TAGDECLs : List Char := "\n    pub tags: Vec<String>,".data

def H2s : List Char :=
  "pub fn get_screenshots(game_exe: String) -> Result<Vec<Screenshot>, String> \x7b".data

def NLBs : List Char := "\n\x7d".data

def L1s : List Char := "let dir = screenshots_dir(&game_exe);".data

def L2s : List Char := "if !dir.exists() \x7b".data

def L3s : List Char := "return Ok(vec![]);".data

def RB1s : List Char := "\x7d".data

def INJs : List Char :=
  "\n    let dir = screenshots_dir(&game_exe);\n    if !dir.exists() \x7b\n        return Ok(vec![]);\n    \x7d\n\n    let meta_path = dir.join(\"tags.json\");\n    let all_tags: std::collections::HashMap<String, Vec<String>> = if meta_path.exists() \x7b\n        let content = std::fs::read_to_string(&meta_path).map_err(|e| e.to_string())?;\n        serde_json::from_str(&content).unwrap_or_default()\n    \x7d else \x7b\n        std::collections::HashMap::new()\n    \x7d;\n".data

def SCs : List Char := "Screenshot \x7b".data

def FNs : List Char := "filename,".data

def TSs : List Char := "timestamp,".data

def LKUPs : List Char :=
  "let tags = all_tags.get(&filename).cloned().unwrap_or_default();\n            Screenshot \x7b\n                path: path_str,\n                filename,\n                timestamp,\n                tags,".data

def SAVECs : List Char :=
  "\n#[tauri::command]\npub fn save_screenshot_tags(game_exe: String, screenshot_name: String, tags: Vec<String>) -> Result<(), String> \x7b\n    let dir = screenshots_dir(&game_exe);\n    if !dir.exists() \x7b\n        return Err(\"Screenshots directory not found\".into());\n    \x7d\n\n    let meta_path = dir.join(\"tags.json\");\n    let mut all_tags: std::collections::HashMap<String, Vec<String>> = if meta_path.exists() \x7b\n        let content = std::fs::read_to_string(&meta_path).map_err(|e| e.to_string())?;\n        serde_json::from_str(&content).unwrap_or_default()\n    \x7d else \x7b\n        std::collections::HashMap::new()\n    \x7d;\n\n    all_tags.insert(screenshot_name, tags);\n\n    let content = serde_json::to_string_pretty(&all_tags).map_err(|e| e.to_string())?;\n    std::fs::write(&meta_path, content).map_err(|e| e.to_string())?;\n    Ok(())\n\x7d\n".data

def SAVEs : List Char := "pub fn save_screenshot_tags".data

def ANCHs : List Char := "#[tauri::command]\npub fn open_screenshots_folder".data

def NL1s : List Char := "\n".data

def SAVEINSs : List Char := SAVECs ++ NL1s ++ ANCHs

def OKAs : List Char := "Ok(Screenshot \x7b".data

def TNs : List Char := "timestamp: now,".data

def RB2s : List Char := "\x7d)".data

def TINSs : List Char := "\n        tags: vec![],".data

def TN2s : List Char := "timestamp: now,\n            tags: vec![],".data

/-! ### Stage 1: the struct injector

`re.sub(r"(pub struct Screenshot \{.*?pub timestamp: u64,)(\n\})",
        r"\1\n    pub tags: Vec<String>,\2", content, flags=re.DOTALL)`.
The pattern is the literal `A1s`, a lazy gap, then the adjacent literals
`Bs` and `Cs`; it matches at a position iff `A1s` is there and `Bs ++ Cs`
occurs later, the lazy gap ending at the first such occurrence.  Group 1 is
everything up to the end of `Bs`, group 2 is `Cs`. -/

def m1 (s : List Char) : Option (Nat × List Char) :=
  if A1s.isPrefixOf s then
    match findLit BCs (s.drop A1s.length) with
    | some k => some (A1s.length + k + BCs.length, s.take (A1s.length + k + Bs.length))
    | none => none
  else none

def stage1 : List Char → List Char :=
  subScan m1 fun _ g1 => g1 ++ TAGDECLs ++ Cs

/-! ### Stage 2: the `get_screenshots` augmenter

The outer pattern captures the header `H2s` (group 1), a lazy body
(group 2) and the footer `(\n\})` (group 3); the lazy body ends at the
first later occurrence of `NLBs`.  The replacement function rebuilds
`header ++ newBody ++ footer` where `newBody` is the body passed through
two inner `re.sub` passes: the guard-to-preamble injection (`sub1`) and
the construction rewrite (`sub2`). -/

def m2 (s : List Char) : Option (Nat × List Char) :=
  if H2s.isPrefixOf s then
    match findLit NLBs (s.drop H2s.length) with
    | some k => some (H2s.length + k + NLBs.length, (s.drop H2s.length).take k)
    | none => none
  else none

/-- Matcher for
`let dir = screenshots_dir\(&game_exe\);\s*if !dir\.exists\(\) \{\s*return Ok\(vec!\[\]\);\s*\}`:
four literals joined by greedy `\s*`, each following literal starting with
a non-space character, so each `\s*` consumes exactly the maximal
whitespace run. -/
def mGuard (s : List Char) : Option (Nat × Unit) :=
  if L1s.isPrefixOf s then
    let t1 := s.drop L1s.length
    let n1 := wsCount t1
    let t2 := t1.drop n1
    if L2s.isPrefixOf t2 then
      let t3 := t2.drop L2s.length
      let n2 := wsCount t3
      let t4 := t3.drop n2
      if L3s.isPrefixOf t4 then
        let t5 := t4.drop L3s.length
        let n3 := wsCount t5
        if RB1s.isPrefixOf (t5.drop n3) then
          some (L1s.length + n1 + L2s.length + n2 + L3s.length + n3 + RB1s.length, ())
        else none
      else none
    else none
  else none

/-- The guard-clause injection pass over the captured body (the first
`re.sub` inside `replace_get_screenshots`). -/
def sub1 : List Char → List Char :=
  subScan mGuard fun _ _ => INJs

/-- Inner lazy-star search of the construction pattern
`Screenshot \{.*?filename,.*?timestamp,(\s*)\}` after `filename,` has been
fixed: find `timestamp,` followed by `(\s*)\}` (the greedy group is the
maximal whitespace run, which must be followed by `}`); on failure the
lazy star advances one position and the next `timestamp,` occurrence is
tried. -/
def searchTsF : Nat → List Char → Option (Nat × List Char)
  | 0, _ => none
  | f + 1, u =>
    match findLit TSs u with
    | none => none
    | some k =>
      let v := u.drop (k + TSs.length)
      let n := wsCount v
      if RB1s.isPrefixOf (v.drop n) then
        some (k + TSs.length + n + RB1s.length, v.take n)
      else
        match searchTsF f (u.drop (k + 1)) with
        | some (j, ws) => some (k + 1 + j, ws)
        | none => none

def searchTs (u : List Char) : Option (Nat × List Char) := searchTsF u.length u

/-- Outer lazy-star search: candidate `filename,` occurrences in order;
for each, `searchTs` exhausts the inner star's candidates before the
outer star advances (the regex backtracking order). -/
def searchFnF : Nat → List Char → Option (Nat × List Char)
  | 0, _ => none
  | f + 1, t =>
    match findLit FNs t with
    | none => none
    | some k =>
      match searchTs (t.drop (k + FNs.length)) with
      | some (j, ws) => some (k + FNs.length + j, ws)
      | none =>
        match searchFnF f (t.drop (k + 1)) with
        | some (j, ws) => some (k + 1 + j, ws)
        | none => none

def searchFn (t : List Char) : Option (Nat × List Char) := searchFnF t.length t

/-- Matcher for `Screenshot \{.*?filename,.*?timestamp,(\s*)\}` (DOTALL);
the capture is the `(\s*)` group. -/
def mCon (s : List Char) : Option (Nat × List Char) :=
  if SCs.isPrefixOf s then
    match searchFn (s.drop SCs.length) with
    | some (j, ws) => some (SCs.length + j, ws)
    | none => none
  else none

/-- The construction-rewrite pass over the captured body (the second
`re.sub` inside `replace_get_screenshots`); the replacement is the fixed
lookup-plus-template text with the captured whitespace group reinstated
before the closing brace. -/
def sub2 : List Char → List Char :=
  subScan mCon fun _ ws => LKUPs ++ ws ++ RB1s

/-- `replace_get_screenshots`: `header + new_body + footer` where the body
goes through the injection pass and then the construction rewrite. -/
def replaceGet (body : List Char) : List Char := sub2 (sub1 body)

def stage2 : List Char → List Char :=
  subScan m2 fun _ body => H2s ++ replaceGet body ++ NLBs

/-! ### Stage 3: guarded insertion of `save_screenshot_tags`

`if "pub fn save_screenshot_tags" not in content:
    content = content.replace(anchor, save_cmd + "\n" + anchor)`. -/

def stage3 (s : List Char) : List Char :=
  if containsSub SAVEs s then s else replaceAll ANCHs SAVEINSs s

/-! ### Stage 4: the unconditional backfill

`re.sub(r"Ok\(Screenshot \{.*?timestamp: now,.*?\}\)", fix, content,
 flags=re.DOTALL)` where `fix` returns
`group(0).replace("timestamp: now,", "timestamp: now,\n        tags: vec![],")`. -/

def searchTnF : Nat → List Char → Option Nat
  | 0, _ => none
  | f + 1, u =>
    match findLit TNs u with
    | none => none
    | some k =>
      match findLit RB2s (u.drop (k + TNs.length)) with
      | some j => some (k + TNs.length + j + RB2s.length)
      | none =>
        match searchTnF f (u.drop (k + 1)) with
        | some j => some (k + 1 + j)
        | none => none

def searchTn (u : List Char) : Option Nat := searchTnF u.length u

def m4 (s : List Char) : Option (Nat × Unit) :=
  if OKAs.isPrefixOf s then
    match searchTn (s.drop OKAs.length) with
    | some j => some (OKAs.length + j, ())
    | none => none
  else none

def stage4 : List Char → List Char :=
  subScan m4 fun g0 _ => replaceAll TNs (TNs ++ TINSs) g0

/-! ### The final no-op pass

`re.sub(r"Ok\(Screenshot \{.*?timestamp: now,\n            tags: vec!\[\],.*?\}\)",
        lambda m: m.group(0), content)` — no DOTALL, so the lazy stars
cannot cross a newline; the replacement is the matched text itself, so the
pass is the identity whatever it matches (`stage4b_id` below).  The
subsequent `if`-block of the script ends in `pass` and changes nothing. -/

def findInLine (pat : List Char) : List Char → Option Nat
  | [] => if pat.isEmpty then some 0 else none
  | c :: cs =>
    if pat.isPrefixOf (c :: cs) then some 0
    else if c = '\n' then none
    else (findInLine pat cs).map (fun i => i + 1)

def search4bF : Nat → List Char → Option Nat
  | 0, _ => none
  | f + 1, t =>
    match findInLine TN2s t with
    | none => none
    | some k =>
      match findInLine RB2s (t.drop (k + TN2s.length)) with
      | some j => some (k + TN2s.length + j + RB2s.length)
      | none =>
        match search4bF f (t.drop (k + 1)) with
        | some j => some (k + 1 + j)
        | none => none

def search4b (t : List Char) : Option Nat := search4bF t.length t

def m4b (s : List Char) : Option (Nat × Unit) :=
  if OKAs.isPrefixOf s then
    match search4b (s.drop OKAs.length) with
    | some j => some (OKAs.length + j, ())
    | none => none
  else none

def stage4b : List Char → List Char :=
  subScan m4b fun g0 _ => g0

/-- The whole buffer transformation of `apply_tags.py`, stages applied in
program order. -/
def applyTags (s : List Char) : List Char :=
  stage4b (stage4 (stage3 (stage2 (stage1 s))))

/-! ### Schematic buffer shapes

The shapes of text the script's patterns are designed to hit, as
functions of their variable parts.  `GUARDs` is a directory-existence
guard clause (the three guard literals separated by whitespace runs);
`CONs` is a `Screenshot` construction naming `filename` and `timestamp`
and ending in whitespace and a closing brace; `OKSITEs` is an
`Ok(Screenshot { .. timestamp: now, .. })` construction site.  `asmOk`
assembles a buffer from a list of such sites with arbitrary gaps,
`asmOkT` is the same buffer with the default `tags` initialization added
at every site, and `okH` collects the side conditions under which the
stage-4 scan hits exactly these sites. -/

def GUARDs (w1 w2 w3 : List Char) : List Char :=
  L1s ++ w1 ++ L2s ++ w2 ++ L3s ++ w3 ++ RB1s

def CONs (x y ws : List Char) : List Char :=
  SCs ++ x ++ FNs ++ y ++ TSs ++ ws ++ RB1s

def OKSITEs (a b : List Char) : List Char :=
  OKAs ++ a ++ TNs ++ b ++ RB2s

def asmOk : List (List Char × List Char × List Char) → List Char → List Char
  | [], t => t
  | (g, a, b) :: rest, t => g ++ OKSITEs a b ++ asmOk rest t

def asmOkT : List (List Char × List Char × List Char) → List Char → List Char
  | [], t => t
  | (g, a, b) :: rest, t => g ++ (OKAs ++ a ++ TNs ++ TINSs ++ b ++ RB2s) ++ asmOkT rest t

def okH : List (List Char × List Char × List Char) → List Char → Bool
  | [], t => noOccB OKAs t
  | (g, a, b) :: rest, t =>
    noOccB OKAs g && noOccB TNs a && noOccB TNs b && noOccB RB2s b && okH rest t

/-- Side conditions under which the stage-4 backfill cannot change the
number of `pub fn save_screenshot_tags` occurrences of the buffer: each
gap is position-decided for the marker (`detB`, allowing the gap that
carries the inserted definition), and the variable site parts carry no
marker occurrence. -/
def okS : List (List Char × List Char × List Char) → Bool
  | [] => true
  | (g, a, b) :: rest => detB SAVEs g && noOccB SAVEs a && noOccB SAVEs b && okS rest

/-! ### Concrete buffers for instantiations

Sample buffers used to instantiate the schematic theorems and to exhibit
concrete behaviour: a fully well-formed target file (`c10wf`, shaped like
the `screenshot.rs` the script is written for), a buffer whose anchor
occurs twice (`c4cex`), an already-patched marker buffer (`c4w`), a
capture-function buffer with one backfill site (`c6cex`), a
`get_screenshots` body whose construction carries a `path` field
expression the template does not use (`c7cex`), a pattern-free buffer
(`c3w`), and the parts of schematic instantiations for the other
witnesses. -/

/-- The parts of a fully well-formed target file, shaped like the
`screenshot.rs` the script is written for: a struct definition, the
`get_screenshots` function with guard and construction, the anchor
function, and a capture function with one backfill site.  `NL4s`, `NL8s`,
`INJTAILs` decompose the injected preamble `INJs` around the guard text it
itself contains; `LKUPAs`/`LKUPBs` decompose the template `LKUPs` around
its `Screenshot \x7b` text. -/
def NL4s : List Char := "\n    ".data

def NL8s : List Char := "\n        ".data

def INJTAILs : List Char := "\n\n    let meta_path = dir.join(\"tags.json\");\n    let all_tags: std::collections::HashMap<String, Vec<String>> = if meta_path.exists() \x7b\n        let content = std::fs::read_to_string(&meta_path).map_err(|e| e.to_string())?;\n        serde_json::from_str(&content).unwrap_or_default()\n    \x7d else \x7b\n        std::collections::HashMap::new()\n    \x7d;\n".data

def LKUPAs : List Char := "let tags = all_tags.get(&filename).cloned().unwrap_or_default();\n            ".data

def LKUPBs : List Char := "\n                path: path_str,\n                filename,\n                timestamp,\n                tags,".data

def n10g0 : List Char := "use std::path::PathBuf;\n\n#[derive(Serialize)]\n".data

def n10mid : List Char := "\n    pub path: String,\n    pub filename: String,\n    ".data

def n10z0a : List Char := "\n\n#[tauri::command]\n".data

def n10b0 : List Char := "\n    ".data

def n10w1 : List Char := "\n    ".data

def n10w2 : List Char := "\n        ".data

def n10w3 : List Char := "\n    ".data

def n10b1 : List Char := "\n\n    let mut shots = vec![];\n    for entry in std::fs::read_dir(&dir) \x7b\n        let filename = entry.name();\n        let timestamp = entry.meta().created;\n        let path_str = entry.path;\n        shots.push(".data

def n10x : List Char := "\n            path: path_str,\n            ".data

def n10y : List Char := "\n            ".data

def n10ws : List Char := "\n        ".data

def n10b2 : List Char := ");\n    \x7d\n    Ok(shots)".data

def n10z2a : List Char := "\n\n".data

def n10z3a : List Char := "(game_exe: String) -> Result<(), String> \x7b\n    Ok(())\n\x7d\n\npub fn capture(game_exe: String) -> Result<Screenshot, String> \x7b\n    let now = 5;\n    ".data

def n10a4 : List Char := "\n        path: p,\n        filename: f,\n        ".data

def n10b4 : List Char := "\n    ".data

def n10z3b : List Char := "\n\x7d\n".data

def c10hd : List Char := n10g0 ++ A1s ++ n10mid ++ Bs ++ TAGDECLs ++ Cs ++ n10z0a

def c10body1 : List Char :=
  n10b0 ++ GUARDs n10w1 n10w2 n10w3 ++ n10b1 ++ CONs n10x n10y n10ws ++ n10b2

def c10tl0 : List Char := n10z2a ++ ANCHs ++ n10z3a ++ OKSITEs n10a4 n10b4 ++ n10z3b

def c10tlS : List Char :=
  n10z2a ++ SAVEINSs ++ n10z3a ++ OKSITEs n10a4 n10b4 ++ n10z3b

/-- The well-formed input file of the double-run scenario. -/
def c10wf : List Char :=
  n10g0 ++ A1s ++ n10mid ++ Bs ++ Cs ++ n10z0a ++ H2s ++ c10body1 ++ NLBs ++ c10tl0

def c10body2 : List Char := n10b0 ++ INJs ++ n10b1 ++ LKUPs ++ n10ws ++ RB1s ++ n10b2

def c10tl1 : List Char :=
  n10z2a ++ SAVEINSs ++ n10z3a ++
    (OKAs ++ n10a4 ++ TNs ++ TINSs ++ n10b4 ++ RB2s) ++ n10z3b

/-- The output of the first run on `c10wf`. -/
def c10out1 : List Char := c10hd ++ H2s ++ c10body2 ++ NLBs ++ c10tl1

def c10body3 : List Char :=
  n10b0 ++ NL4s ++ INJs ++ INJTAILs ++ n10b1 ++ LKUPs ++ n10ws ++ RB1s ++ n10b2

/-- The output of the second run: the preamble appears twice inside the
function body (`INJs` and `INJTAILs` each carry one copy of the
`all_tags`-loading text) and the backfill site carries two default
initializations. -/
def c10out2 : List Char :=
  c10hd ++ H2s ++ c10body3 ++ NLBs ++ n10z2a ++ SAVEINSs ++ n10z3a ++
    (OKAs ++ n10a4 ++ TNs ++ TINSs ++ TINSs ++ n10b4 ++ RB2s) ++ n10z3b

def MPs : List Char := "let all_tags: std::collections::HashMap".data

def c4mid : List Char := " A\n".data

def c4tb : List Char := " B".data

def c4cex : List Char := ANCHs ++ c4mid ++ ANCHs ++ c4tb

def c4w : List Char :=
  "// already patched\npub fn save_screenshot_tags() \x7b\x7d\n".data

def c6cex : List Char :=
  "fn capture() -> Result<Screenshot, String> \x7b let now = 1; Ok(Screenshot \x7b path, filename, timestamp: now, \x7d) \x7d".data

def c7cex : List Char :=
  "pub fn get_screenshots(game_exe: String) -> Result<Vec<Screenshot>, String> \x7b let s = Screenshot \x7b path: foo_bar, filename, timestamp, \x7d;\n\x7d rest".data

def FOOs : List Char := "foo_bar".data

def c3w : List Char := "fn main() \x7b let x = 1; \x7d\n".data

def c2p : List Char := "use serde::Serialize;\n\n#[derive(Serialize)]\n".data

def c2mid : List Char := "\n    pub a: u32,\n    pub b: String,\n    ".data

def c2z : List Char := "\n\npub fn other() \x7b\x7d\n".data

def c1p : List Char := "use std::path::PathBuf;\n\n#[tauri::command]\n".data

def c1b0 : List Char := "\n    ".data

def c1w1 : List Char := "\n    ".data

def c1w2 : List Char := "\n        ".data

def c1w3 : List Char := "\n    ".data

def c1b1 : List Char :=
  "\n\n    let mut shots = vec![];\n    for entry in d \x7b\n        let filename = entry.name();\n        let timestamp = entry.time();\n        let path_str = entry.path();\n        shots.push(".data

def c1x : List Char := "\n            path: path_str,\n            ".data

def c1y : List Char := "\n            ".data

def c1ws : List Char := "\n        ".data

def c1b2 : List Char := ");\n    \x7d\n    Ok(shots)".data

def c1z : List Char := "\n\n// rest of file\n".data

def c5g1 : List Char := "fn cap(game_exe: String) -> R \x7b\n    let now = 1;\n    ".data

def c5a1 : List Char := "\n        path: p,\n        filename: f,\n        ".data

def c5b1 : List Char := "\n    ".data

def c5g2 : List Char := "\n\x7d\n\nfn cap_win(game_exe: String) -> R \x7b\n    ".data

def c5a2 : List Char := " q ".data

def c5b2 : List Char := "\n        tags: vec![],\n    ".data

def c5t : List Char := "\n\x7d\n".data

def c5sites : List (List Char × List Char × List Char) :=
  [(c5g1, c5a1, c5b1), (c5g2, c5a2, c5b2)]

/-! ## Lemma toolkit

Basic facts about `isPrefixOf`, `findLit`, `noOccB`, `wsCount`,
`replaceAll`, `countOcc` and `subScan`, used to compute the stages on
schematic buffers. -/

theorem bool_not_true {b : Bool} (h : ¬ b = true) : b = false := by
  cases b with
  | false => rfl
  | true => exact absurd rfl h

theorem bnot_true {b : Bool} (h : (!b) = true) : b = false := by
  cases b with
  | false => rfl
  | true => simp at h

theorem ipo_append_self (p z : List Char) : p.isPrefixOf (p ++ z) = true := by
  induction p with
  | nil => simp
  | cons a as ih => simp [List.isPrefixOf, ih]

theorem ipo_nil {p : List Char} (hp : p ≠ []) : p.isPrefixOf [] = false := by
  cases p with
  | nil => exact absurd rfl hp
  | cons a as => rfl

theorem ipo_trans_append {p u : List Char} (z : List Char)
    (h : p.isPrefixOf u = true) : p.isPrefixOf (u ++ z) = true := by
  induction p generalizing u with
  | nil => simp
  | cons a as ih =>
    cases u with
    | nil => simp [List.isPrefixOf] at h
    | cons b bs =>
      rw [List.isPrefixOf_cons₂, Bool.and_eq_true] at h
      rw [List.cons_append, List.isPrefixOf_cons₂, Bool.and_eq_true]
      exact ⟨h.1, ih h.2⟩

theorem ipo_cases {p u : List Char} (z : List Char)
    (h : p.isPrefixOf (u ++ z) = true) :
    p.isPrefixOf u = true ∨ u.isPrefixOf p = true := by
  induction p generalizing u with
  | nil => left; simp
  | cons a as ih =>
    cases u with
    | nil => right; simp
    | cons b bs =>
      rw [List.cons_append, List.isPrefixOf_cons₂, Bool.and_eq_true, beq_iff_eq] at h
      obtain ⟨hab, h2⟩ := h
      subst hab
      rcases ih h2 with hc | hc
      · left; rw [List.isPrefixOf_cons₂, Bool.and_eq_true]; exact ⟨by simp, hc⟩
      · right; rw [List.isPrefixOf_cons₂, Bool.and_eq_true]; exact ⟨by simp, hc⟩

theorem ipo_head {u v w : List Char} (h : (u ++ v).isPrefixOf w = true) :
    u.isPrefixOf w = true := by
  induction u generalizing w with
  | nil => simp
  | cons a as ih =>
    cases w with
    | nil => simp [List.isPrefixOf] at h
    | cons b bs =>
      rw [List.cons_append, List.isPrefixOf_cons₂, Bool.and_eq_true] at h
      rw [List.isPrefixOf_cons₂, Bool.and_eq_true]
      exact ⟨h.1, ih h.2⟩

theorem eq_append_of_ipo {p s : List Char} (h : p.isPrefixOf s = true) :
    s = p ++ s.drop p.length := by
  induction p generalizing s with
  | nil => simp
  | cons a as ih =>
    cases s with
    | nil => simp [List.isPrefixOf] at h
    | cons b bs =>
      rw [List.isPrefixOf_cons₂, Bool.and_eq_true, beq_iff_eq] at h
      obtain ⟨hab, h2⟩ := h
      subst hab
      simpa [List.length_cons, List.drop_succ_cons] using ih h2

theorem findLit_cons_pos {pat : List Char} {c : Char} {cs : List Char}
    (h : pat.isPrefixOf (c :: cs) = true) : findLit pat (c :: cs) = some 0 := by
  simp [findLit, h]

theorem findLit_cons_neg {pat : List Char} {c : Char} {cs : List Char}
    (h : pat.isPrefixOf (c :: cs) = false) :
    findLit pat (c :: cs) = (findLit pat cs).map (fun i => i + 1) := by
  simp [findLit, h]

theorem findLit_nil_none {pat : List Char} (hp : pat ≠ []) :
    findLit pat [] = none := by
  cases pat with
  | nil => exact absurd rfl hp
  | cons a as => rfl

theorem findLit_some_lt {pat u : List Char} {k : Nat} (hp : pat ≠ [])
    (h : findLit pat u = some k) : k < u.length := by
  induction u generalizing k with
  | nil =>
    rw [findLit_nil_none hp] at h
    cases h
  | cons c cs ih =>
    by_cases hpre : pat.isPrefixOf (c :: cs) = true
    · rw [findLit_cons_pos hpre] at h
      injection h with hk
      subst hk
      simp
    · rw [findLit_cons_neg (bool_not_true hpre)] at h
      cases hf : findLit pat cs with
      | none => rw [hf] at h; cases h
      | some j =>
        rw [hf] at h
        simp only [Option.map] at h
        injection h with hk
        subst hk
        have := ih hf
        simp only [List.length_cons]
        omega

theorem findLit_none_iff {pat : List Char} (hp : pat ≠ []) (s : List Char) :
    findLit pat s = none ↔ ∀ i, pat.isPrefixOf (s.drop i) = false := by
  induction s with
  | nil =>
    simp only [findLit_nil_none hp, List.drop_nil, true_iff]
    intro i
    exact ipo_nil hp
  | cons c cs ih =>
    constructor
    · intro h i
      by_cases hpre : pat.isPrefixOf (c :: cs) = true
      · rw [findLit_cons_pos hpre] at h; cases h
      · replace hpre := bool_not_true hpre
        cases i with
        | zero => rw [List.drop_zero]; exact hpre
        | succ j =>
          rw [findLit_cons_neg hpre] at h
          have hnone : findLit pat cs = none := by
            cases hf : findLit pat cs with
            | none => rfl
            | some x => rw [hf] at h; cases h
          rw [List.drop_succ_cons]
          exact (ih.mp hnone) j
    · intro h
      have hpre : pat.isPrefixOf (c :: cs) = false := by
        have := h 0
        rwa [List.drop_zero] at this
      rw [findLit_cons_neg hpre]
      have hnone : findLit pat cs = none := by
        rw [ih]
        intro i
        have := h (i + 1)
        rwa [List.drop_succ_cons] at this
      rw [hnone]; rfl

theorem noOcc_spec {pat s : List Char} (h : noOccB pat s = true) {i : Nat}
    (hi : i < s.length) :
    pat.isPrefixOf (s.drop i) = false ∧ (s.drop i).isPrefixOf pat = false := by
  unfold noOccB at h
  rw [List.all_eq_true] at h
  have h2 := h i (List.mem_range.mpr hi)
  rw [Bool.and_eq_true] at h2
  exact ⟨bnot_true h2.1, bnot_true h2.2⟩

theorem noOcc_intro {pat s : List Char}
    (h : ∀ i, i < s.length →
      pat.isPrefixOf (s.drop i) = false ∧ (s.drop i).isPrefixOf pat = false) :
    noOccB pat s = true := by
  unfold noOccB
  rw [List.all_eq_true]
  intro i hi
  rw [List.mem_range] at hi
  rw [(h i hi).1, (h i hi).2]
  rfl

theorem noOccR_spec {pat : List Char} : ∀ {s : List Char}, noOccR pat s = true →
    ∀ i, i < s.length →
      pat.isPrefixOf (s.drop i) = false ∧ (s.drop i).isPrefixOf pat = false := by
  intro s
  induction s with
  | nil =>
    intro h i hi
    simp at hi
  | cons c cs ih =>
    intro h i hi
    unfold noOccR at h
    simp only [Bool.and_eq_true, Bool.not_eq_true'] at h
    obtain ⟨⟨h1, h2⟩, h3⟩ := h
    cases i with
    | zero => exact ⟨h1, h2⟩
    | succ j =>
      rw [List.drop_succ_cons]
      exact ih h3 j (by simp only [List.length_cons] at hi; omega)

theorem noOccB_of_R {pat s : List Char} (h : noOccR pat s = true) :
    noOccB pat s = true :=
  noOcc_intro (noOccR_spec h)

theorem det_intro {pat s : List Char}
    (h : ∀ i, i < s.length →
      pat.isPrefixOf (s.drop i) = true ∨ (s.drop i).isPrefixOf pat = false) :
    detB pat s = true := by
  unfold detB
  rw [List.all_eq_true]
  intro i hi
  rw [List.mem_range] at hi
  rcases h i hi with h1 | h1
  · rw [h1]
    rfl
  · rw [h1]
    simp

theorem detR_spec {pat : List Char} : ∀ {s : List Char}, detR pat s = true →
    ∀ i, i < s.length →
      pat.isPrefixOf (s.drop i) = true ∨ (s.drop i).isPrefixOf pat = false := by
  intro s
  induction s with
  | nil =>
    intro h i hi
    simp at hi
  | cons c cs ih =>
    intro h i hi
    unfold detR at h
    simp only [Bool.and_eq_true] at h
    obtain ⟨h1, h2⟩ := h
    cases i with
    | zero =>
      cases hp : pat.isPrefixOf (c :: cs) with
      | true => exact Or.inl hp
      | false =>
        rw [hp] at h1
        simp only [Bool.false_or, Bool.not_eq_true'] at h1
        exact Or.inr h1
    | succ j =>
      rw [List.drop_succ_cons]
      exact ih h2 j (by simp only [List.length_cons] at hi; omega)

theorem detB_of_R {pat s : List Char} (h : detR pat s = true) : detB pat s = true :=
  det_intro (detR_spec h)

/-- The straddle-blocking property: if no occurrence of `pat` starts inside
`s`, then for every continuation `z`, no position strictly inside `s`
carries an occurrence of `pat` in `s ++ z`. -/
theorem noOcc_app_false {pat s : List Char} (h : noOccB pat s = true)
    (z : List Char) {i : Nat} (hi : i < s.length) :
    pat.isPrefixOf ((s ++ z).drop i) = false := by
  have hd : (s ++ z).drop i = s.drop i ++ z :=
    List.drop_append_of_le_length (Nat.le_of_lt hi)
  rw [hd]
  by_cases hc : pat.isPrefixOf (s.drop i ++ z) = true
  · rcases ipo_cases z hc with h1 | h1
    · rw [(noOcc_spec h hi).1] at h1; cases h1
    · rw [(noOcc_spec h hi).2] at h1; cases h1
  · exact bool_not_true hc

theorem noOcc_drop_false {pat s : List Char} (h : noOccB pat s = true)
    (hp : pat ≠ []) (i : Nat) : pat.isPrefixOf (s.drop i) = false := by
  by_cases hi : i < s.length
  · exact (noOcc_spec h hi).1
  · rw [List.drop_eq_nil_of_le (Nat.le_of_not_lt hi)]
    exact ipo_nil hp

theorem findLit_none_of_noOcc {pat s : List Char} (h : noOccB pat s = true)
    (hp : pat ≠ []) : findLit pat s = none :=
  (findLit_none_iff hp s).mpr (noOcc_drop_false h hp)

theorem noOcc_tail {pat : List Char} {c : Char} {cs : List Char}
    (h : noOccB pat (c :: cs) = true) : noOccB pat cs = true := by
  apply noOcc_intro
  intro i hi
  have h2 := noOcc_spec h (show i + 1 < (c :: cs).length by simp only [List.length_cons]; omega)
  rwa [List.drop_succ_cons] at h2

theorem noOccB_append {pat x y : List Char} (hx : noOccB pat x = true)
    (hy : noOccB pat y = true) : noOccB pat (x ++ y) = true := by
  apply noOcc_intro
  intro i hi
  by_cases hix : i < x.length
  · refine ⟨noOcc_app_false hx y hix, ?_⟩
    have hd : (x ++ y).drop i = x.drop i ++ y :=
      List.drop_append_of_le_length (Nat.le_of_lt hix)
    rw [hd]
    by_cases hc : (x.drop i ++ y).isPrefixOf pat = true
    · have h2 := ipo_head hc
      rw [(noOcc_spec hx hix).2] at h2; cases h2
    · exact bool_not_true hc
  · have hxle : x.length ≤ i := Nat.le_of_not_lt hix
    have hEq : i = x.length + (i - x.length) := by omega
    have hd : (x ++ y).drop i = y.drop (i - x.length) := by
      conv_lhs => rw [hEq]
      rw [← List.drop_drop, List.drop_left]
    have hiy : i - x.length < y.length := by
      simp only [List.length_append] at hi
      omega
    rw [hd]
    exact noOcc_spec hy hiy

/-- First-occurrence positioning: if no occurrence of `pat` starts inside
`x`, the first occurrence of `pat` in `x ++ pat ++ z` is at `x.length`. -/
theorem findLit_at {pat x z : List Char} (hp : pat ≠ [])
    (hx : noOccB pat x = true) : findLit pat (x ++ pat ++ z) = some x.length := by
  induction x with
  | nil =>
    cases pat with
    | nil => exact absurd rfl hp
    | cons a as =>
      simp only [List.nil_append, List.length_nil]
      exact findLit_cons_pos (ipo_append_self _ _)
  | cons c cs ih =>
    have h0 : pat.isPrefixOf ((c :: cs) ++ (pat ++ z)) = false := by
      have h1 := noOcc_app_false hx (pat ++ z) (show 0 < (c :: cs).length by simp)
      rwa [List.drop_zero] at h1
    have h0' : pat.isPrefixOf (c :: (cs ++ pat ++ z)) = false := by
      rw [List.append_assoc, ← List.cons_append]
      exact h0
    show findLit pat (c :: (cs ++ pat ++ z)) = some (c :: cs).length
    rw [findLit_cons_neg h0', ih (noOcc_tail hx)]
    simp

theorem findLit_none_app {pat x y : List Char} (hp : pat ≠ [])
    (hx : noOccB pat x = true) (hy : findLit pat y = none) :
    findLit pat (x ++ y) = none := by
  rw [findLit_none_iff hp]
  intro i
  by_cases hix : i < x.length
  · exact noOcc_app_false hx y hix
  · have hxle : x.length ≤ i := Nat.le_of_not_lt hix
    have hEq : i = x.length + (i - x.length) := by omega
    have hd : (x ++ y).drop i = y.drop (i - x.length) := by
      conv_lhs => rw [hEq]
      rw [← List.drop_drop, List.drop_left]
    rw [hd]
    exact (findLit_none_iff hp y).mp hy _

section SubScanLemmas

variable {α : Type} {m : List Char → Option (Nat × α)} {r : List Char → α → List Char}

theorem subScanF_fuel (f1 f2 : Nat) (s : List Char)
    (h1 : s.length ≤ f1) (h2 : s.length ≤ f2) :
    subScanF m r f1 s = subScanF m r f2 s := by
  induction f1 generalizing f2 s with
  | zero =>
    have hs : s = [] := List.eq_nil_of_length_eq_zero (Nat.le_zero.mp h1)
    subst hs
    cases f2 <;> rfl
  | succ f ih =>
    cases s with
    | nil => cases f2 <;> rfl
    | cons c cs =>
      cases f2 with
      | zero => simp at h2
      | succ g =>
        simp only [subScanF]
        simp only [List.length_cons] at h1 h2
        cases hm : m (c :: cs) with
        | none =>
          dsimp only
          rw [ih g cs (by omega) (by omega)]
        | some p =>
          obtain ⟨n, a⟩ := p
          dsimp only
          by_cases hn : 1 ≤ n
          · rw [if_pos hn, if_pos hn]
            rw [ih g ((c :: cs).drop n)
              (by simp only [List.length_drop, List.length_cons]; omega)
              (by simp only [List.length_drop, List.length_cons]; omega)]
          · rw [if_neg hn, if_neg hn]
            rw [ih g cs (by omega) (by omega)]

theorem subScan_nil : subScan m r [] = [] := rfl

theorem subScan_cons_none {c : Char} {cs : List Char} (h : m (c :: cs) = none) :
    subScan m r (c :: cs) = c :: subScan m r cs := by
  show subScanF m r (cs.length + 1) (c :: cs) = c :: subScanF m r cs.length cs
  simp only [subScanF]
  rw [h]

theorem subScan_cons_some {c : Char} {cs : List Char} {n : Nat} {a : α}
    (h : m (c :: cs) = some (n, a)) (hn : 1 ≤ n) :
    subScan m r (c :: cs) = r ((c :: cs).take n) a ++ subScan m r ((c :: cs).drop n) := by
  show subScanF m r (cs.length + 1) (c :: cs) =
    r ((c :: cs).take n) a ++ subScanF m r ((c :: cs).drop n).length ((c :: cs).drop n)
  simp only [subScanF]
  rw [h]
  dsimp only
  rw [if_pos hn]
  rw [subScanF_fuel cs.length ((c :: cs).drop n).length ((c :: cs).drop n)
    (by simp only [List.length_drop, List.length_cons]; omega) (Nat.le_refl _)]

/-- The scan copies a region no match starts in. -/
theorem subScan_skip {x y : List Char}
    (h : ∀ i, i < x.length → m ((x ++ y).drop i) = none) :
    subScan m r (x ++ y) = x ++ subScan m r y := by
  induction x with
  | nil => simp
  | cons c cx ih =>
    rw [List.cons_append]
    have h0 : m (c :: (cx ++ y)) = none := by
      have := h 0 (by simp)
      rwa [List.drop_zero, List.cons_append] at this
    rw [subScan_cons_none h0]
    rw [List.cons_append]
    congr 1
    apply ih
    intro i hi
    have := h (i + 1) (by simp only [List.length_cons]; omega)
    rwa [List.cons_append, List.drop_succ_cons] at this

theorem subScan_id_of_none {s : List Char} (h : ∀ i, m (s.drop i) = none) :
    subScan m r s = s := by
  induction s with
  | nil => exact subScan_nil
  | cons c cs ih =>
    have h0 : m (c :: cs) = none := by
      have := h 0
      rwa [List.drop_zero] at this
    rw [subScan_cons_none h0]
    congr 1
    apply ih
    intro i
    have := h (i + 1)
    rwa [List.drop_succ_cons] at this

/-- A scan whose matcher requires the literal `pat` as a prefix leaves a
buffer without any occurrence of `pat` unchanged. -/
theorem subScan_id_of_noOcc {pat s : List Char}
    (hm : ∀ t, pat.isPrefixOf t = false → m t = none) (hp : pat ≠ [])
    (h : noOccB pat s = true) : subScan m r s = s :=
  subScan_id_of_none fun i => hm _ (noOcc_drop_false h hp i)

/-- A scan whose replacement is the matched text itself is the identity. -/
theorem subScan_g0_id {m : List Char → Option (Nat × α)}
    (hm : ∀ s n a, m s = some (n, a) → 1 ≤ n) (s : List Char) :
    subScan m (fun g0 _ => g0) s = s := by
  have key : ∀ N t, List.length t ≤ N → subScan m (fun g0 _ => g0) t = t := by
    intro N
    induction N with
    | zero =>
      intro t ht
      have : t = [] := List.eq_nil_of_length_eq_zero (Nat.le_zero.mp ht)
      rw [this]
      exact subScan_nil
    | succ N ihN =>
      intro t ht
      cases t with
      | nil => exact subScan_nil
      | cons c cs =>
        cases hm2 : m (c :: cs) with
        | none =>
          rw [subScan_cons_none hm2]
          rw [ihN cs (by simp only [List.length_cons] at ht; omega)]
        | some pr =>
          obtain ⟨n, a⟩ := pr
          have hn := hm _ _ _ hm2
          rw [subScan_cons_some hm2 hn]
          rw [ihN ((c :: cs).drop n)
            (by simp only [List.length_drop, List.length_cons] at ht ⊢; omega)]
          exact List.take_append_drop n (c :: cs)
  exact key s.length s le_rfl

end SubScanLemmas

theorem replaceAllF_fuel {pat r : List Char} (f1 f2 : Nat) (s : List Char)
    (h1 : s.length ≤ f1) (h2 : s.length ≤ f2) :
    replaceAllF pat r f1 s = replaceAllF pat r f2 s := by
  induction f1 generalizing f2 s with
  | zero =>
    have hs : s = [] := List.eq_nil_of_length_eq_zero (Nat.le_zero.mp h1)
    subst hs
    cases f2 <;> rfl
  | succ f ih =>
    cases s with
    | nil => cases f2 <;> rfl
    | cons c cs =>
      cases f2 with
      | zero => simp at h2
      | succ g =>
        simp only [replaceAllF]
        simp only [List.length_cons] at h1 h2
        by_cases hc : (pat.isPrefixOf (c :: cs) && !pat.isEmpty) = true
        · rw [if_pos hc, if_pos hc]
          have hpe : 1 ≤ pat.length := by
            cases hp : pat with
            | nil => rw [hp] at hc; simp at hc
            | cons d ds => simp
          rw [ih g ((c :: cs).drop pat.length)
            (by simp only [List.length_drop, List.length_cons]; omega)
            (by simp only [List.length_drop, List.length_cons]; omega)]
        · rw [if_neg hc, if_neg hc]
          rw [ih g cs (by omega) (by omega)]

theorem isEmpty_false_of_ne_nil {pat : List Char} (hp : pat ≠ []) :
    pat.isEmpty = false := by
  cases pat with
  | nil => exact absurd rfl hp
  | cons a as => rfl

theorem replaceAll_nil {pat r : List Char} : replaceAll pat r [] = [] := rfl

theorem replaceAll_cons_neg {pat r : List Char} {c : Char} {cs : List Char}
    (h : pat.isPrefixOf (c :: cs) = false) :
    replaceAll pat r (c :: cs) = c :: replaceAll pat r cs := by
  show replaceAllF pat r (cs.length + 1) (c :: cs) = c :: replaceAllF pat r cs.length cs
  simp only [replaceAllF]
  rw [if_neg (by rw [h]; simp)]

theorem replaceAll_cons_pos {pat r : List Char} {c : Char} {cs : List Char}
    (h : pat.isPrefixOf (c :: cs) = true) (hp : pat ≠ []) :
    replaceAll pat r (c :: cs) = r ++ replaceAll pat r ((c :: cs).drop pat.length) := by
  show replaceAllF pat r (cs.length + 1) (c :: cs) =
    r ++ replaceAllF pat r ((c :: cs).drop pat.length).length ((c :: cs).drop pat.length)
  simp only [replaceAllF]
  rw [if_pos (by rw [h, isEmpty_false_of_ne_nil hp]; rfl)]
  have hpe : 1 ≤ pat.length := by
    cases hpp : pat with
    | nil => exact absurd hpp hp
    | cons d ds => simp
  rw [replaceAllF_fuel cs.length ((c :: cs).drop pat.length).length
    ((c :: cs).drop pat.length)
    (by simp only [List.length_drop, List.length_cons]; omega) (Nat.le_refl _)]

theorem replaceAll_head {pat r : List Char} (hp : pat ≠ []) (y : List Char) :
    replaceAll pat r (pat ++ y) = r ++ replaceAll pat r y := by
  cases pat with
  | nil => exact absurd rfl hp
  | cons a as =>
    rw [List.cons_append]
    rw [replaceAll_cons_pos (by rw [← List.cons_append]; exact ipo_append_self _ _) hp]
    congr 2
    rw [List.length_cons, List.drop_succ_cons, List.drop_left]

theorem replaceAll_skip {pat r x y : List Char}
    (h : ∀ i, i < x.length → pat.isPrefixOf ((x ++ y).drop i) = false) :
    replaceAll pat r (x ++ y) = x ++ replaceAll pat r y := by
  induction x with
  | nil => simp
  | cons c cx ih =>
    rw [List.cons_append]
    have h0 : pat.isPrefixOf (c :: (cx ++ y)) = false := by
      have := h 0 (by simp)
      rwa [List.drop_zero, List.cons_append] at this
    rw [replaceAll_cons_neg h0]
    rw [List.cons_append]
    congr 1
    apply ih
    intro i hi
    have := h (i + 1) (by simp only [List.length_cons]; omega)
    rwa [List.cons_append, List.drop_succ_cons] at this

theorem replaceAll_id_of_false {pat r s : List Char}
    (h : ∀ i, pat.isPrefixOf (s.drop i) = false) : replaceAll pat r s = s := by
  induction s with
  | nil => exact replaceAll_nil
  | cons c cs ih =>
    have h0 : pat.isPrefixOf (c :: cs) = false := by
      have := h 0
      rwa [List.drop_zero] at this
    rw [replaceAll_cons_neg h0]
    congr 1
    apply ih
    intro i
    have := h (i + 1)
    rwa [List.drop_succ_cons] at this

theorem replaceAll_id_of_none {pat r s : List Char} (hp : pat ≠ [])
    (h : findLit pat s = none) : replaceAll pat r s = s :=
  replaceAll_id_of_false ((findLit_none_iff hp s).mp h)

/-- `str.replace` on a buffer with exactly one occurrence, sitting between
an occurrence-free region and an occurrence-free tail. -/
theorem replaceAll_single {pat r x y : List Char} (hp : pat ≠ [])
    (hx : noOccB pat x = true) (hy : findLit pat y = none) :
    replaceAll pat r (x ++ (pat ++ y)) = x ++ (r ++ y) := by
  rw [replaceAll_skip (fun i hi => noOcc_app_false hx (pat ++ y) hi)]
  rw [replaceAll_head hp y]
  rw [replaceAll_id_of_none hp hy]

theorem head?_app_left {l : List Char} (hl : l ≠ []) (z : List Char) :
    (l ++ z).head? = l.head? := by
  cases l with
  | nil => exact absurd rfl hl
  | cons c cs => rfl

theorem wsCount_ws_append {w v : List Char} (hw : w.all isWs = true)
    (hv : ∀ c, v.head? = some c → isWs c = false) :
    wsCount (w ++ v) = w.length := by
  induction w with
  | nil =>
    cases v with
    | nil => rfl
    | cons d ds =>
      simp only [List.nil_append, List.length_nil, wsCount]
      rw [hv d rfl]
      rfl
  | cons a as ih =>
    rw [List.all_cons, Bool.and_eq_true] at hw
    rw [List.cons_append]
    simp only [wsCount, List.length_cons]
    rw [hw.1]
    simp [ih hw.2]

theorem countOcc_cons {pat : List Char} {c : Char} {cs : List Char} :
    countOcc pat (c :: cs) =
      (if pat.isPrefixOf (c :: cs) then 1 else 0) + countOcc pat cs := by
  rw [countOcc]

theorem countOcc_zero_of_false {pat s : List Char}
    (h : ∀ i, pat.isPrefixOf (s.drop i) = false) : countOcc pat s = 0 := by
  induction s with
  | nil => rfl
  | cons c cs ih =>
    rw [countOcc_cons]
    have h0 : pat.isPrefixOf (c :: cs) = false := by
      have := h 0
      rwa [List.drop_zero] at this
    rw [h0]
    simp only [Bool.false_eq_true, if_false, Nat.zero_add]
    apply ih
    intro i
    have := h (i + 1)
    rwa [List.drop_succ_cons] at this

theorem countOcc_zero_of_none {pat s : List Char} (hp : pat ≠ [])
    (h : findLit pat s = none) : countOcc pat s = 0 :=
  countOcc_zero_of_false ((findLit_none_iff hp s).mp h)

theorem countOcc_app_noOcc {pat x y : List Char} (hp : pat ≠ [])
    (hx : noOccB pat x = true) : countOcc pat (x ++ y) = countOcc pat y := by
  induction x with
  | nil => simp
  | cons c cx ih =>
    rw [List.cons_append, countOcc_cons]
    have h0 : pat.isPrefixOf (c :: (cx ++ y)) = false := by
      have := noOcc_app_false hx y (show 0 < (c :: cx).length by simp)
      rwa [List.drop_zero, List.cons_append] at this
    rw [h0]
    simp only [Bool.false_eq_true, if_false, Nat.zero_add]
    exact ih (noOcc_tail hx)

theorem det_spec {pat s : List Char} (h : detB pat s = true) {i : Nat}
    (hi : i < s.length) :
    pat.isPrefixOf (s.drop i) = true ∨ (s.drop i).isPrefixOf pat = false := by
  unfold detB at h
  rw [List.all_eq_true] at h
  have h2 := h i (List.mem_range.mpr hi)
  rw [Bool.or_eq_true] at h2
  rcases h2 with h2 | h2
  · exact Or.inl h2
  · exact Or.inr (bnot_true h2)

theorem det_tail {pat : List Char} {c : Char} {cs : List Char}
    (h : detB pat (c :: cs) = true) : detB pat cs = true := by
  unfold detB at h ⊢
  rw [List.all_eq_true] at h ⊢
  intro i hi
  rw [List.mem_range] at hi
  have h2 := h (i + 1) (List.mem_range.mpr (by simp only [List.length_cons]; omega))
  rwa [List.drop_succ_cons] at h2

/-- Occurrence counting splits across an append whose left part decides
each of its positions. -/
theorem countOcc_app_det {pat x y : List Char} (hp : pat ≠ [])
    (hd : detB pat x = true) :
    countOcc pat (x ++ y) = countOcc pat x + countOcc pat y := by
  induction x with
  | nil =>
    rw [List.nil_append, show countOcc pat ([] : List Char) = 0 from rfl]
    omega
  | cons c cx ih =>
    rw [List.cons_append, countOcc_cons, countOcc_cons]
    have hstep : (if pat.isPrefixOf (c :: (cx ++ y)) then (1 : Nat) else 0) =
        (if pat.isPrefixOf (c :: cx) then (1 : Nat) else 0) := by
      by_cases hpf : pat.isPrefixOf (c :: cx) = true
      · have hext : pat.isPrefixOf (c :: (cx ++ y)) = true := by
          rw [← List.cons_append]
          exact ipo_trans_append y hpf
        rw [hpf, hext]
      · have hpf' := bool_not_true hpf
        have h2 : pat.isPrefixOf (c :: (cx ++ y)) = false := by
          by_cases hq : pat.isPrefixOf (c :: (cx ++ y)) = true
          · rw [← List.cons_append] at hq
            rcases ipo_cases y hq with hcase | hcase
            · rw [hpf'] at hcase; cases hcase
            · rcases det_spec hd (show 0 < (c :: cx).length by simp) with hdet | hdet
              · rw [List.drop_zero, hpf'] at hdet; cases hdet
              · rw [List.drop_zero, hcase] at hdet; cases hdet
          · exact bool_not_true hq
        rw [hpf', h2]
    rw [hstep]
    rw [ih (det_tail hd)]
    omega

/-! ### Matcher lemmas

For each pattern matcher: it fails where its leading literal is absent,
and it succeeds on the schematic shape with the expected match length and
capture. -/

theorem app_ne_nil {l z : List Char} (hl : l ≠ []) : l ++ z ≠ [] := by
  cases l with
  | nil => exact absurd rfl hl
  | cons c cs => simp

theorem subScan_match {α : Type} {m : List Char → Option (Nat × α)}
    {r : List Char → α → List Char} {s : List Char} {n : Nat} {a : α}
    (hne : s ≠ []) (h : m s = some (n, a)) (hn : 1 ≤ n) :
    subScan m r s = r (s.take n) a ++ subScan m r (s.drop n) := by
  cases s with
  | nil => exact absurd rfl hne
  | cons c cs => exact subScan_cons_some h hn

theorem findLit_at' {pat x z : List Char} (hp : pat ≠ [])
    (hx : noOccB pat x = true) : findLit pat (x ++ (pat ++ z)) = some x.length := by
  rw [← List.append_assoc]
  exact findLit_at hp hx

theorem headNotWs_app {l z : List Char} {d : Char} (hd : l.head? = some d)
    (hws : isWs d = false) : ∀ c, (l ++ z).head? = some c → isWs c = false := by
  intro c hc
  rw [head?_app_left (by intro hnil; rw [hnil] at hd; cases hd) z] at hc
  rw [hd] at hc
  cases hc
  exact hws

theorem m1_none {s : List Char} (h : A1s.isPrefixOf s = false) : m1 s = none := by
  unfold m1
  rw [h]
  rfl

theorem m1_at {mid z : List Char} (hmid : noOccB BCs mid = true) :
    m1 (A1s ++ (mid ++ (BCs ++ z))) =
      some (A1s.length + mid.length + BCs.length, A1s ++ (mid ++ Bs)) := by
  unfold m1
  rw [if_pos (ipo_append_self A1s (mid ++ (BCs ++ z)))]
  rw [List.drop_left]
  rw [findLit_at' (by decide) hmid]
  dsimp only
  have htake : (A1s ++ (mid ++ (BCs ++ z))).take (A1s.length + mid.length + Bs.length) =
      A1s ++ (mid ++ Bs) := by
    rw [show A1s ++ (mid ++ (BCs ++ z)) = (A1s ++ (mid ++ Bs)) ++ (Cs ++ z) by
      simp [BCs, List.append_assoc]]
    exact List.take_left' (by simp only [List.length_append]; omega)
  rw [htake]

theorem m2_none {s : List Char} (h : H2s.isPrefixOf s = false) : m2 s = none := by
  unfold m2
  rw [h]
  rfl

theorem m2_at {body z : List Char} (hbody : noOccB NLBs body = true) :
    m2 (H2s ++ (body ++ (NLBs ++ z))) =
      some (H2s.length + body.length + NLBs.length, body) := by
  unfold m2
  rw [if_pos (ipo_append_self H2s (body ++ (NLBs ++ z)))]
  rw [List.drop_left]
  rw [findLit_at' (by decide) hbody]
  dsimp only
  rw [List.take_left]

theorem mGuard_none {s : List Char} (h : L1s.isPrefixOf s = false) : mGuard s = none := by
  unfold mGuard
  rw [h]
  rfl

theorem mGuard_at {w1 w2 w3 z : List Char} (h1 : w1.all isWs = true)
    (h2 : w2.all isWs = true) (h3 : w3.all isWs = true) :
    mGuard (L1s ++ (w1 ++ (L2s ++ (w2 ++ (L3s ++ (w3 ++ (RB1s ++ z))))))) =
      some (L1s.length + w1.length + L2s.length + w2.length + L3s.length +
        w3.length + RB1s.length, ()) := by
  unfold mGuard
  rw [if_pos (ipo_append_self L1s _)]
  dsimp only
  rw [List.drop_left]
  rw [wsCount_ws_append h1 (headNotWs_app (show L2s.head? = some 'i' by decide) (by decide))]
  rw [List.drop_left]
  rw [if_pos (ipo_append_self L2s _)]
  rw [List.drop_left]
  rw [wsCount_ws_append h2 (headNotWs_app (show L3s.head? = some 'r' by decide) (by decide))]
  rw [List.drop_left]
  rw [if_pos (ipo_append_self L3s _)]
  rw [List.drop_left]
  rw [wsCount_ws_append h3
    (headNotWs_app (show RB1s.head? = some '\x7d' by decide) (by decide))]
  rw [List.drop_left]
  rw [if_pos (ipo_append_self RB1s _)]

theorem mCon_none {s : List Char} (h : SCs.isPrefixOf s = false) : mCon s = none := by
  unfold mCon
  rw [h]
  rfl

theorem searchTsF_fuel (f1 f2 : Nat) (u : List Char)
    (h1 : u.length ≤ f1) (h2 : u.length ≤ f2) :
    searchTsF f1 u = searchTsF f2 u := by
  induction f1 generalizing f2 u with
  | zero =>
    have hu : u = [] := List.eq_nil_of_length_eq_zero (Nat.le_zero.mp h1)
    subst hu
    cases f2 with
    | zero => rfl
    | succ g =>
      show none = searchTsF (g + 1) []
      simp only [searchTsF]
      rw [show findLit TSs [] = none from by decide]
  | succ f ih =>
    cases u with
    | nil =>
      cases f2 with
      | zero =>
        show searchTsF (f + 1) [] = none
        simp only [searchTsF]
        rw [show findLit TSs [] = none from by decide]
      | succ g =>
        simp only [searchTsF]
        rw [show findLit TSs [] = none from by decide]
    | cons c cs =>
      cases f2 with
      | zero => simp at h2
      | succ g =>
        simp only [searchTsF]
        simp only [List.length_cons] at h1 h2
        cases hm : findLit TSs (c :: cs) with
        | none => rfl
        | some k =>
          have hk : k < (c :: cs).length := findLit_some_lt (by decide) hm
          simp only [List.length_cons] at hk
          dsimp only
          rw [ih g ((c :: cs).drop (k + 1))
            (by simp only [List.length_drop, List.length_cons]; omega)
            (by simp only [List.length_drop, List.length_cons]; omega)]

/-- One-step unfolding of `searchTs`. -/
theorem searchTs_eq (u : List Char) :
    searchTs u =
      match findLit TSs u with
      | none => none
      | some k =>
        let v := u.drop (k + TSs.length)
        let n := wsCount v
        if RB1s.isPrefixOf (v.drop n) then
          some (k + TSs.length + n + RB1s.length, v.take n)
        else
          match searchTs (u.drop (k + 1)) with
          | some (j, ws) => some (k + 1 + j, ws)
          | none => none := by
  cases u with
  | nil =>
    rw [show findLit TSs [] = none from by decide]
    rfl
  | cons c cs =>
    show searchTsF (cs.length + 1) (c :: cs) = _
    simp only [searchTsF]
    cases hm : findLit TSs (c :: cs) with
    | none => rfl
    | some k =>
      dsimp only
      rw [searchTsF_fuel cs.length ((c :: cs).drop (k + 1)).length ((c :: cs).drop (k + 1))
        (by
          have hk : k < (c :: cs).length := findLit_some_lt (by decide) hm
          simp only [List.length_drop, List.length_cons] at hk ⊢
          omega)
        (Nat.le_refl _)]
      rfl

theorem searchTs_at {y ws z : List Char} (hy : noOccB TSs y = true)
    (hws : ws.all isWs = true) :
    searchTs (y ++ (TSs ++ (ws ++ (RB1s ++ z)))) =
      some (y.length + TSs.length + ws.length + RB1s.length, ws) := by
  rw [searchTs_eq]
  rw [findLit_at' (by decide) hy]
  dsimp only
  have hdrop : (y ++ (TSs ++ (ws ++ (RB1s ++ z)))).drop (y.length + TSs.length) =
      ws ++ (RB1s ++ z) := by
    rw [show y ++ (TSs ++ (ws ++ (RB1s ++ z))) = (y ++ TSs) ++ (ws ++ (RB1s ++ z)) by
      rw [List.append_assoc]]
    exact List.drop_left' (by rw [List.length_append])
  rw [hdrop]
  rw [wsCount_ws_append hws
    (headNotWs_app (show RB1s.head? = some '\x7d' by decide) (by decide))]
  rw [List.drop_left]
  rw [if_pos (ipo_append_self RB1s z)]
  rw [List.take_left]

theorem searchFnF_fuel (f1 f2 : Nat) (t : List Char)
    (h1 : t.length ≤ f1) (h2 : t.length ≤ f2) :
    searchFnF f1 t = searchFnF f2 t := by
  induction f1 generalizing f2 t with
  | zero =>
    have ht : t = [] := List.eq_nil_of_length_eq_zero (Nat.le_zero.mp h1)
    subst ht
    cases f2 with
    | zero => rfl
    | succ g =>
      show none = searchFnF (g + 1) []
      simp only [searchFnF]
      rw [show findLit FNs [] = none from by decide]
  | succ f ih =>
    cases t with
    | nil =>
      cases f2 with
      | zero =>
        show searchFnF (f + 1) [] = none
        simp only [searchFnF]
        rw [show findLit FNs [] = none from by decide]
      | succ g =>
        simp only [searchFnF]
        rw [show findLit FNs [] = none from by decide]
    | cons c cs =>
      cases f2 with
      | zero => simp at h2
      | succ g =>
        simp only [searchFnF]
        simp only [List.length_cons] at h1 h2
        cases hm : findLit FNs (c :: cs) with
        | none => rfl
        | some k =>
          have hk : k < (c :: cs).length := findLit_some_lt (by decide) hm
          simp only [List.length_cons] at hk
          dsimp only
          rw [ih g ((c :: cs).drop (k + 1))
            (by simp only [List.length_drop, List.length_cons]; omega)
            (by simp only [List.length_drop, List.length_cons]; omega)]

/-- One-step unfolding of `searchFn`. -/
theorem searchFn_eq (t : List Char) :
    searchFn t =
      match findLit FNs t with
      | none => none
      | some k =>
        match searchTs (t.drop (k + FNs.length)) with
        | some (j, ws) => some (k + FNs.length + j, ws)
        | none =>
          match searchFn (t.drop (k + 1)) with
          | some (j, ws) => some (k + 1 + j, ws)
          | none => none := by
  cases t with
  | nil =>
    rw [show findLit FNs [] = none from by decide]
    rfl
  | cons c cs =>
    show searchFnF (cs.length + 1) (c :: cs) = _
    simp only [searchFnF]
    cases hm : findLit FNs (c :: cs) with
    | none => rfl
    | some k =>
      dsimp only
      rw [searchFnF_fuel cs.length ((c :: cs).drop (k + 1)).length ((c :: cs).drop (k + 1))
        (by
          have hk : k < (c :: cs).length := findLit_some_lt (by decide) hm
          simp only [List.length_drop, List.length_cons] at hk ⊢
          omega)
        (Nat.le_refl _)]
      rfl

theorem searchFn_at {x y ws z : List Char} (hx : noOccB FNs x = true)
    (hy : noOccB TSs y = true) (hws : ws.all isWs = true) :
    searchFn (x ++ (FNs ++ (y ++ (TSs ++ (ws ++ (RB1s ++ z)))))) =
      some (x.length + FNs.length + (y.length + TSs.length + ws.length + RB1s.length),
        ws) := by
  rw [searchFn_eq]
  rw [findLit_at' (by decide) hx]
  dsimp only
  have hdrop : (x ++ (FNs ++ (y ++ (TSs ++ (ws ++ (RB1s ++ z)))))).drop
      (x.length + FNs.length) = y ++ (TSs ++ (ws ++ (RB1s ++ z))) := by
    rw [show x ++ (FNs ++ (y ++ (TSs ++ (ws ++ (RB1s ++ z))))) =
      (x ++ FNs) ++ (y ++ (TSs ++ (ws ++ (RB1s ++ z)))) by rw [List.append_assoc]]
    exact List.drop_left' (by rw [List.length_append])
  rw [hdrop]
  rw [searchTs_at hy hws]

theorem mCon_at {x y ws z : List Char} (hx : noOccB FNs x = true)
    (hy : noOccB TSs y = true) (hws : ws.all isWs = true) :
    mCon (SCs ++ (x ++ (FNs ++ (y ++ (TSs ++ (ws ++ (RB1s ++ z))))))) =
      some (SCs.length +
        (x.length + FNs.length + (y.length + TSs.length + ws.length + RB1s.length)),
        ws) := by
  unfold mCon
  rw [if_pos (ipo_append_self SCs _)]
  rw [List.drop_left]
  rw [searchFn_at hx hy hws]

theorem m4_none {s : List Char} (h : OKAs.isPrefixOf s = false) : m4 s = none := by
  unfold m4
  rw [h]
  rfl

theorem searchTnF_fuel (f1 f2 : Nat) (u : List Char)
    (h1 : u.length ≤ f1) (h2 : u.length ≤ f2) :
    searchTnF f1 u = searchTnF f2 u := by
  induction f1 generalizing f2 u with
  | zero =>
    have hu : u = [] := List.eq_nil_of_length_eq_zero (Nat.le_zero.mp h1)
    subst hu
    cases f2 with
    | zero => rfl
    | succ g =>
      show none = searchTnF (g + 1) []
      simp only [searchTnF]
      rw [show findLit TNs [] = none from by decide]
  | succ f ih =>
    cases u with
    | nil =>
      cases f2 with
      | zero =>
        show searchTnF (f + 1) [] = none
        simp only [searchTnF]
        rw [show findLit TNs [] = none from by decide]
      | succ g =>
        simp only [searchTnF]
        rw [show findLit TNs [] = none from by decide]
    | cons c cs =>
      cases f2 with
      | zero => simp at h2
      | succ g =>
        simp only [searchTnF]
        simp only [List.length_cons] at h1 h2
        cases hm : findLit TNs (c :: cs) with
        | none => rfl
        | some k =>
          have hk : k < (c :: cs).length := findLit_some_lt (by decide) hm
          simp only [List.length_cons] at hk
          dsimp only
          rw [ih g ((c :: cs).drop (k + 1))
            (by simp only [List.length_drop, List.length_cons]; omega)
            (by simp only [List.length_drop, List.length_cons]; omega)]

/-- One-step unfolding of `searchTn`. -/
theorem searchTn_eq (u : List Char) :
    searchTn u =
      match findLit TNs u with
      | none => none
      | some k =>
        match findLit RB2s (u.drop (k + TNs.length)) with
        | some j => some (k + TNs.length + j + RB2s.length)
        | none =>
          match searchTn (u.drop (k + 1)) with
          | some j => some (k + 1 + j)
          | none => none := by
  cases u with
  | nil =>
    rw [show findLit TNs [] = none from by decide]
    rfl
  | cons c cs =>
    show searchTnF (cs.length + 1) (c :: cs) = _
    simp only [searchTnF]
    cases hm : findLit TNs (c :: cs) with
    | none => rfl
    | some k =>
      dsimp only
      rw [searchTnF_fuel cs.length ((c :: cs).drop (k + 1)).length ((c :: cs).drop (k + 1))
        (by
          have hk : k < (c :: cs).length := findLit_some_lt (by decide) hm
          simp only [List.length_drop, List.length_cons] at hk ⊢
          omega)
        (Nat.le_refl _)]
      rfl

theorem searchTn_at {a b z : List Char} (ha : noOccB TNs a = true)
    (hb : noOccB RB2s b = true) :
    searchTn (a ++ (TNs ++ (b ++ (RB2s ++ z)))) =
      some (a.length + TNs.length + b.length + RB2s.length) := by
  rw [searchTn_eq]
  rw [findLit_at' (by decide) ha]
  dsimp only
  have hdrop : (a ++ (TNs ++ (b ++ (RB2s ++ z)))).drop (a.length + TNs.length) =
      b ++ (RB2s ++ z) := by
    rw [show a ++ (TNs ++ (b ++ (RB2s ++ z))) = (a ++ TNs) ++ (b ++ (RB2s ++ z)) by
      rw [List.append_assoc]]
    exact List.drop_left' (by rw [List.length_append])
  rw [hdrop]
  rw [findLit_at' (by decide) hb]

theorem m4_at {a b z : List Char} (ha : noOccB TNs a = true)
    (hb : noOccB RB2s b = true) :
    m4 (OKAs ++ (a ++ (TNs ++ (b ++ (RB2s ++ z))))) =
      some (OKAs.length + (a.length + TNs.length + b.length + RB2s.length), ()) := by
  unfold m4
  rw [if_pos (ipo_append_self OKAs _)]
  rw [List.drop_left]
  rw [searchTn_at ha hb]

theorem m4b_pos {s : List Char} {n : Nat} {a : Unit} (h : m4b s = some (n, a)) :
    1 ≤ n := by
  unfold m4b at h
  split at h
  · split at h
    · next j heq =>
      injection h with h1
      cases h1
      have hlen : 1 ≤ OKAs.length := by decide
      omega
    · cases h
  · cases h

/-- The script's final `re.sub` replaces every match with its own matched
text, so it is the identity on every buffer. -/
theorem stage4b_id (s : List Char) : stage4b s = s :=
  subScan_g0_id (fun _ _ _ h => m4b_pos h) s

/-! ### Stage-level lemmas -/

/-- The guard-injection pass on a body consisting of a guard-free region,
one guard clause, and a guard-free remainder: the guard is replaced by the
loading preamble and nothing else changes. -/
theorem sub1_schema {b0 w1 w2 w3 rest : List Char}
    (hb0 : noOccB L1s b0 = true) (h1 : w1.all isWs = true)
    (h2 : w2.all isWs = true) (h3 : w3.all isWs = true)
    (hrest : noOccB L1s rest = true) :
    sub1 (b0 ++ (GUARDs w1 w2 w3 ++ rest)) = b0 ++ (INJs ++ rest) := by
  unfold sub1
  rw [subScan_skip (fun i hi => mGuard_none (noOcc_app_false hb0 _ hi))]
  rw [show GUARDs w1 w2 w3 ++ rest =
    L1s ++ (w1 ++ (L2s ++ (w2 ++ (L3s ++ (w3 ++ (RB1s ++ rest)))))) by
    simp [GUARDs, List.append_assoc]]
  rw [subScan_match (app_ne_nil (by decide)) (mGuard_at h1 h2 h3)
    (by
      have hL : 1 ≤ L1s.length := by decide
      omega)]
  rw [show (L1s ++ (w1 ++ (L2s ++ (w2 ++ (L3s ++ (w3 ++ (RB1s ++ rest))))))).drop
      (L1s.length + w1.length + L2s.length + w2.length + L3s.length + w3.length +
        RB1s.length) = rest from by
    rw [show L1s ++ (w1 ++ (L2s ++ (w2 ++ (L3s ++ (w3 ++ (RB1s ++ rest)))))) =
      (L1s ++ w1 ++ L2s ++ w2 ++ L3s ++ w3 ++ RB1s) ++ rest by simp [List.append_assoc]]
    exact List.drop_left' (by simp only [List.length_append])]
  rw [subScan_id_of_noOcc (fun t ht => mGuard_none ht) (by decide) hrest]

/-- The construction-rewrite pass on a body consisting of a match-free
region, one construction site, and a match-free remainder: the site is
replaced by the lookup-plus-template text (the `(\s*)` group reinstated
before the brace) and nothing else changes. -/
theorem sub2_schema {pre x y ws post : List Char}
    (hpre : noOccB SCs pre = true) (hx : noOccB FNs x = true)
    (hy : noOccB TSs y = true) (hws : ws.all isWs = true)
    (hpost : noOccB SCs post = true) :
    sub2 (pre ++ (CONs x y ws ++ post)) = pre ++ (LKUPs ++ (ws ++ (RB1s ++ post))) := by
  unfold sub2
  rw [subScan_skip (fun i hi => mCon_none (noOcc_app_false hpre _ hi))]
  rw [show CONs x y ws ++ post =
    SCs ++ (x ++ (FNs ++ (y ++ (TSs ++ (ws ++ (RB1s ++ post)))))) by
    simp [CONs, List.append_assoc]]
  rw [subScan_match (app_ne_nil (by decide)) (mCon_at hx hy hws)
    (by
      have hS : 1 ≤ SCs.length := by decide
      omega)]
  rw [show (SCs ++ (x ++ (FNs ++ (y ++ (TSs ++ (ws ++ (RB1s ++ post))))))).drop
      (SCs.length +
        (x.length + FNs.length + (y.length + TSs.length + ws.length + RB1s.length))) =
      post from by
    rw [show SCs ++ (x ++ (FNs ++ (y ++ (TSs ++ (ws ++ (RB1s ++ post)))))) =
      (SCs ++ x ++ FNs ++ y ++ TSs ++ ws ++ RB1s) ++ post by simp [List.append_assoc]]
    exact List.drop_left' (by simp only [List.length_append]; omega)]
  rw [subScan_id_of_noOcc (fun t ht => mCon_none ht) (by decide) hpost]
  simp [List.append_assoc]

theorem stage3_guarded {s : List Char} (h : containsSub SAVEs s = true) :
    stage3 s = s := by
  unfold stage3
  rw [if_pos h]

/-- Stage 3 on an unpatched buffer whose anchor occurs exactly once:
the new function text (followed by a newline) is inserted immediately
before the anchor. -/
theorem stage3_insert {p z : List Char} (hpS : noOccB SAVEs p = true)
    (hzS : findLit SAVEs z = none) (hpA : noOccB ANCHs p = true)
    (hzA : findLit ANCHs z = none) :
    stage3 (p ++ (ANCHs ++ z)) = p ++ (SAVEINSs ++ z) := by
  unfold stage3
  rw [if_neg ?hguard]
  case hguard =>
    have hnone : findLit SAVEs (p ++ (ANCHs ++ z)) = none := by
      apply findLit_none_app (by decide) hpS
      exact findLit_none_app (by decide) (by decide) hzS
    simp [containsSub, hnone]
  rw [replaceAll_skip (fun i hi => noOcc_app_false hpA _ hi)]
  rw [replaceAll_head (by decide) z]
  rw [replaceAll_id_of_none (by decide) hzA]

/-- What `findLit` finding an occurrence at `k` means: the literal is
there, and at no earlier position. -/
theorem findLit_some_spec {pat s : List Char} {k : Nat}
    (h : findLit pat s = some k) :
    pat.isPrefixOf (s.drop k) = true ∧ ∀ i, i < k → pat.isPrefixOf (s.drop i) = false := by
  induction s generalizing k with
  | nil =>
    cases hpat : pat with
    | nil =>
      rw [hpat] at h
      rw [show findLit ([] : List Char) ([] : List Char) = some 0 from rfl] at h
      injection h with hk
      subst hk
      refine ⟨by simp, fun i hi => absurd hi (by omega)⟩
    | cons a l =>
      rw [hpat] at h
      cases h
  | cons c cs ih =>
    by_cases hpre : pat.isPrefixOf (c :: cs) = true
    · rw [findLit_cons_pos hpre] at h
      injection h with hk
      subst hk
      refine ⟨by rwa [List.drop_zero], fun i hi => absurd hi (by omega)⟩
    · have hpre' := bool_not_true hpre
      rw [findLit_cons_neg hpre'] at h
      cases hf : findLit pat cs with
      | none => rw [hf] at h; cases h
      | some j =>
        rw [hf] at h
        simp only [Option.map] at h
        injection h with hk
        subst hk
        obtain ⟨ha, hb⟩ := ih hf
        refine ⟨by rwa [List.drop_succ_cons], ?_⟩
        intro i hi
        cases i with
        | zero => rwa [List.drop_zero]
        | succ i2 =>
          rw [List.drop_succ_cons]
          exact hb i2 (by omega)

theorem isSome_map_nat {o : Option Nat} {f : Nat → Nat} :
    (o.map f).isSome = o.isSome := by
  cases o <;> rfl

theorem findLit_isSome_app {pat x y : List Char}
    (h : (findLit pat y).isSome = true) : (findLit pat (x ++ y)).isSome = true := by
  induction x with
  | nil => simpa using h
  | cons c cx ih =>
    rw [List.cons_append]
    by_cases hpre : pat.isPrefixOf (c :: (cx ++ y)) = true
    · rw [findLit_cons_pos hpre]
      rfl
    · rw [findLit_cons_neg (bool_not_true hpre)]
      rw [isSome_map_nat]
      exact ih

theorem findLit_isSome_extend {pat s z : List Char}
    (h : (findLit pat s).isSome = true) : (findLit pat (s ++ z)).isSome = true := by
  induction s with
  | nil =>
    cases hpat : pat with
    | nil =>
      cases z with
      | nil => rfl
      | cons d ds =>
        rw [List.nil_append, findLit_cons_pos (by simp)]
        rfl
    | cons a l =>
      rw [hpat] at h
      rw [findLit_nil_none (by simp)] at h
      cases h
  | cons c cs ih =>
    rw [List.cons_append]
    by_cases hpre : pat.isPrefixOf (c :: (cs ++ z)) = true
    · rw [findLit_cons_pos hpre]
      rfl
    · have hpre2 : pat.isPrefixOf (c :: cs) = false := by
        by_cases hq : pat.isPrefixOf (c :: cs) = true
        · have := ipo_trans_append z hq
          rw [List.cons_append] at this
          rw [this] at hpre
          exact absurd rfl hpre
        · exact bool_not_true hq
      rw [findLit_cons_neg (bool_not_true hpre)]
      rw [isSome_map_nat]
      apply ih
      rw [findLit_cons_neg hpre2] at h
      rwa [isSome_map_nat] at h

theorem searchTn_none {u : List Char} (h : findLit TNs u = none) :
    searchTn u = none := by
  rw [searchTn_eq]
  rw [h]

/-- The stage-4 matcher fails everywhere in a buffer containing no
`timestamp: now,` text at all. -/
theorem m4_none_of_noTN {c : List Char} (h5 : noOccB TNs c = true) (i : Nat) :
    m4 (c.drop i) = none := by
  unfold m4
  split
  · rw [List.drop_drop]
    rw [searchTn_none ?hnone]
    case hnone =>
      rw [findLit_none_iff (by decide)]
      intro j
      rw [List.drop_drop]
      exact noOcc_drop_false h5 (by decide) _
  · rfl


/-- A list that is not a prefix cannot become one by appending. -/
theorem ipo_false_app {u p y : List Char} (h : u.isPrefixOf p = false) :
    (u ++ y).isPrefixOf p = false := by
  cases hc : (u ++ y).isPrefixOf p with
  | false => rfl
  | true =>
    have hu := ipo_head hc
    rw [h] at hu
    simp at hu

/-- Position-decidedness composes over append: an occurrence cannot
straddle the boundary, because a straddling start would be a suffix of
`x` that is a proper prefix of the pattern, which `detB pat x`
excludes. -/
theorem detB_append {pat x y : List Char} (hx : detB pat x = true)
    (hy : detB pat y = true) : detB pat (x ++ y) = true := by
  apply det_intro
  intro i hi
  by_cases hix : i < x.length
  · rw [List.drop_append_of_le_length (Nat.le_of_lt hix)]
    rcases det_spec hx hix with h1 | h1
    · exact Or.inl (ipo_trans_append y h1)
    · exact Or.inr (ipo_false_app h1)
  · obtain ⟨k, rfl⟩ : ∃ k, i = x.length + k := ⟨i - x.length, by omega⟩
    rw [List.drop_append]
    exact det_spec hy (by rw [List.length_append] at hi; omega)

/-- The stage-4 backfill inserts only `TINSs` texts inside the sites, so
under the `okS` side conditions it does not change the number of
`pub fn save_screenshot_tags` occurrences of the buffer. -/
theorem countOcc_saves_asmOkT (l : List (List Char × List Char × List Char)) :
    ∀ t : List Char, okS l = true →
      countOcc SAVEs (asmOkT l t) = countOcc SAVEs (asmOk l t) := by
  induction l with
  | nil =>
    intro t h
    rfl
  | cons gab rest ih =>
    obtain ⟨g, a, b⟩ := gab
    intro t h
    unfold okS at h
    simp only [Bool.and_eq_true] at h
    obtain ⟨⟨⟨hg, ha⟩, hb⟩, hrest⟩ := h
    have hSne : SAVEs ≠ [] := by decide
    have hsiteT : noOccB SAVEs (OKAs ++ a ++ TNs ++ TINSs ++ b ++ RB2s) = true :=
      noOccB_append (noOccB_append (noOccB_append (noOccB_append (noOccB_append
        (noOccB_of_R (by decide)) ha) (noOccB_of_R (by decide)))
        (noOccB_of_R (by decide))) hb) (noOccB_of_R (by decide))
    have hsite : noOccB SAVEs (OKSITEs a b) = true := by
      unfold OKSITEs
      exact noOccB_append (noOccB_append (noOccB_append (noOccB_append
        (noOccB_of_R (by decide)) ha) (noOccB_of_R (by decide))) hb)
        (noOccB_of_R (by decide))
    show countOcc SAVEs (g ++ (OKAs ++ a ++ TNs ++ TINSs ++ b ++ RB2s) ++ asmOkT rest t)
      = countOcc SAVEs (g ++ OKSITEs a b ++ asmOk rest t)
    rw [show g ++ (OKAs ++ a ++ TNs ++ TINSs ++ b ++ RB2s) ++ asmOkT rest t =
      g ++ ((OKAs ++ a ++ TNs ++ TINSs ++ b ++ RB2s) ++ asmOkT rest t) from by
      simp [List.append_assoc]]
    rw [countOcc_app_det hSne hg]
    rw [countOcc_app_noOcc hSne hsiteT]
    rw [show g ++ OKSITEs a b ++ asmOk rest t = g ++ (OKSITEs a b ++ asmOk rest t)
      from by simp [List.append_assoc]]
    rw [countOcc_app_det hSne hg]
    rw [countOcc_app_noOcc hSne hsite]
    rw [ih t hrest]

/-! ### Identity and scenario lemmas for repeated runs -/


theorem drop_one_append {x W : List Char} (hx : x ≠ []) (k : Nat) :
    (x ++ W).drop (k + 1) = (x.drop 1 ++ W).drop k := by
  cases x with
  | nil => exact absurd rfl hx
  | cons c cs => simp

/-- The stage-1 matcher fails everywhere in a buffer with no occurrence of
the terminal-attribute-plus-delimiter text `BCs`. -/
theorem m1_none_noBC {c : List Char} (h : noOccB BCs c = true) (i : Nat) :
    m1 (c.drop i) = none := by
  unfold m1
  split
  · rw [List.drop_drop]
    rw [show findLit BCs (c.drop (i + A1s.length)) = none from by
      rw [findLit_none_iff (by decide)]
      intro j
      rw [List.drop_drop]
      exact noOcc_drop_false h (by decide) _]
  · rfl

/-- The construction rewrite is the identity on a buffer with exactly one
`Screenshot \x7b` occurrence after which the lazy-star search fails. -/
theorem sub2_id_of_parts {U W : List Char} (hU : noOccB SCs U = true)
    (hW : searchFn W = none)
    (htail : noOccB SCs (SCs.drop 1 ++ W) = true) :
    sub2 (U ++ (SCs ++ W)) = U ++ (SCs ++ W) := by
  unfold sub2
  apply subScan_id_of_none
  intro i
  by_cases hi : i < U.length
  · exact mCon_none (noOcc_app_false hU _ hi)
  · obtain ⟨k, rfl⟩ : ∃ k, i = U.length + k := ⟨i - U.length, by omega⟩
    rw [show (U ++ (SCs ++ W)).drop (U.length + k) = (SCs ++ W).drop k from by
      rw [List.drop_append]]
    cases k with
    | zero =>
      rw [List.drop_zero]
      unfold mCon
      rw [if_pos (ipo_append_self SCs W)]
      rw [List.drop_left]
      rw [hW]
    | succ k2 =>
      rw [drop_one_append (by decide) k2]
      exact mCon_none (noOcc_drop_false htail (by decide) k2)

/-- Stage 2 on a buffer whose function body contains a guard clause but
whose only `Screenshot \x7b` text is one at which the construction search
fails: the guard is expanded and nothing else changes.  This is the shape
of an already-patched body, where the template text contains the sole
`Screenshot \x7b` occurrence and its `timestamp,` is followed by `tags,`
rather than whitespace and a closing brace. -/
theorem stage2_noCon (p b0 w1 w2 w3 rest z U W : List Char)
    (hp : noOccB H2s p = true)
    (hbody : noOccB NLBs (b0 ++ GUARDs w1 w2 w3 ++ rest) = true)
    (hb0L : noOccB L1s b0 = true)
    (h1 : w1.all isWs = true) (h2 : w2.all isWs = true) (h3 : w3.all isWs = true)
    (hrestL : noOccB L1s rest = true)
    (hsplit : b0 ++ (INJs ++ rest) = U ++ (SCs ++ W))
    (hU : noOccB SCs U = true) (hW : searchFn W = none)
    (htail : noOccB SCs (SCs.drop 1 ++ W) = true)
    (hz : noOccB H2s z = true) :
    stage2 (p ++ H2s ++ (b0 ++ GUARDs w1 w2 w3 ++ rest) ++ NLBs ++ z)
      = p ++ H2s ++ (b0 ++ INJs ++ rest) ++ NLBs ++ z := by
  have hrg : replaceGet (b0 ++ GUARDs w1 w2 w3 ++ rest) = b0 ++ (INJs ++ rest) := by
    unfold replaceGet
    have hs1 : sub1 (b0 ++ GUARDs w1 w2 w3 ++ rest) = b0 ++ (INJs ++ rest) := by
      rw [show b0 ++ GUARDs w1 w2 w3 ++ rest = b0 ++ (GUARDs w1 w2 w3 ++ rest) by
        simp [List.append_assoc]]
      exact sub1_schema hb0L h1 h2 h3 hrestL
    rw [hs1, hsplit]
    exact sub2_id_of_parts hU hW htail
  unfold stage2
  simp only [List.append_assoc]
  rw [subScan_skip (fun i hi => m2_none (noOcc_app_false hp _ hi))]
  rw [show H2s ++ (b0 ++ (GUARDs w1 w2 w3 ++ (rest ++ (NLBs ++ z))))
    = H2s ++ ((b0 ++ GUARDs w1 w2 w3 ++ rest) ++ (NLBs ++ z)) by
    simp [List.append_assoc]]
  rw [subScan_match (app_ne_nil (by decide)) (m2_at hbody)
    (by
      have hH : 1 ≤ H2s.length := by decide
      omega)]
  rw [show (H2s ++ ((b0 ++ GUARDs w1 w2 w3 ++ rest) ++ (NLBs ++ z))).drop
      (H2s.length + (b0 ++ GUARDs w1 w2 w3 ++ rest).length + NLBs.length)
      = z from by
    rw [show H2s ++ ((b0 ++ GUARDs w1 w2 w3 ++ rest) ++ (NLBs ++ z)) =
      (H2s ++ (b0 ++ GUARDs w1 w2 w3 ++ rest) ++ NLBs) ++ z by
      simp [List.append_assoc]]
    exact List.drop_left' (by simp only [List.length_append])]
  rw [subScan_id_of_noOcc (fun t ht => m2_none ht) (by decide) hz]
  rw [hrg]
  simp [List.append_assoc]

/-! ## Claims -/

/-- Stage 2 on a buffer containing one `get_screenshots` function with a
guard clause and one construction site: the guard becomes the preamble,
the construction becomes the lookup-plus-template text. -/
theorem stage2_full
    {p b0 w1 w2 w3 b1 x y ws b2 z : List Char}
    (hp : noOccB H2s p = true)
    (hbody : noOccB NLBs (b0 ++ GUARDs w1 w2 w3 ++ b1 ++ CONs x y ws ++ b2) = true)
    (hb0L : noOccB L1s b0 = true)
    (h1 : w1.all isWs = true) (h2 : w2.all isWs = true) (h3 : w3.all isWs = true)
    (hrestL : noOccB L1s (b1 ++ CONs x y ws ++ b2) = true)
    (hb0S : noOccB SCs b0 = true) (hb1S : noOccB SCs b1 = true)
    (hx : noOccB FNs x = true) (hy : noOccB TSs y = true) (hws : ws.all isWs = true)
    (hb2S : noOccB SCs b2 = true) (hz : noOccB H2s z = true) :
    stage2 (p ++ H2s ++ (b0 ++ GUARDs w1 w2 w3 ++ b1 ++ CONs x y ws ++ b2) ++ NLBs ++ z)
      = p ++ H2s ++ b0 ++ INJs ++ b1 ++ LKUPs ++ ws ++ RB1s ++ b2 ++ NLBs ++ z := by
  have hrg : replaceGet (b0 ++ GUARDs w1 w2 w3 ++ b1 ++ CONs x y ws ++ b2) =
      b0 ++ (INJs ++ (b1 ++ (LKUPs ++ (ws ++ (RB1s ++ b2))))) := by
    unfold replaceGet
    have hs1 : sub1 (b0 ++ GUARDs w1 w2 w3 ++ b1 ++ CONs x y ws ++ b2) =
        b0 ++ (INJs ++ (b1 ++ CONs x y ws ++ b2)) := by
      rw [show b0 ++ GUARDs w1 w2 w3 ++ b1 ++ CONs x y ws ++ b2 =
        b0 ++ (GUARDs w1 w2 w3 ++ (b1 ++ CONs x y ws ++ b2)) by simp [List.append_assoc]]
      exact sub1_schema hb0L h1 h2 h3 hrestL
    rw [hs1]
    rw [show b0 ++ (INJs ++ (b1 ++ CONs x y ws ++ b2)) =
      (b0 ++ (INJs ++ b1)) ++ (CONs x y ws ++ b2) by simp [List.append_assoc]]
    rw [sub2_schema (noOccB_append hb0S (noOccB_append (by decide) hb1S)) hx hy hws hb2S]
    simp [List.append_assoc]
  unfold stage2
  simp only [List.append_assoc]
  rw [subScan_skip (fun i hi => m2_none (noOcc_app_false hp _ hi))]
  rw [show H2s ++ (b0 ++ (GUARDs w1 w2 w3 ++ (b1 ++ (CONs x y ws ++ (b2 ++ (NLBs ++ z))))))
    = H2s ++ ((b0 ++ GUARDs w1 w2 w3 ++ b1 ++ CONs x y ws ++ b2) ++ (NLBs ++ z)) by
    simp [List.append_assoc]]
  rw [subScan_match (app_ne_nil (by decide)) (m2_at hbody)
    (by
      have hH : 1 ≤ H2s.length := by decide
      omega)]
  rw [show (H2s ++ ((b0 ++ GUARDs w1 w2 w3 ++ b1 ++ CONs x y ws ++ b2) ++ (NLBs ++ z))).drop
      (H2s.length + (b0 ++ GUARDs w1 w2 w3 ++ b1 ++ CONs x y ws ++ b2).length + NLBs.length)
      = z from by
    rw [show H2s ++ ((b0 ++ GUARDs w1 w2 w3 ++ b1 ++ CONs x y ws ++ b2) ++ (NLBs ++ z)) =
      (H2s ++ (b0 ++ GUARDs w1 w2 w3 ++ b1 ++ CONs x y ws ++ b2) ++ NLBs) ++ z by
      simp [List.append_assoc]]
    exact List.drop_left' (by simp only [List.length_append])]
  rw [subScan_id_of_noOcc (fun t ht => m2_none ht) (by decide) hz]
  rw [hrg]
  simp [List.append_assoc]

/-- C1: on a buffer containing the `get_screenshots` function with a
directory-existence guard clause and a `Screenshot` construction naming
the `filename` and `timestamp` fields (`timestamp,` immediately followed
by whitespace and the closing brace), stage 2 expands the guard with the
sidecar-loading preamble, and the transformed construction is preceded by
the tags lookup keyed by `filename` (defaulting to an empty sequence when
the key is absent — the text `LKUPs` starts with
`let tags = all_tags.get(&filename).cloned().unwrap_or_default();`) and
its field list includes the new `tags` attribute. -/
theorem C1_construction_rewrite
    {p b0 w1 w2 w3 b1 x y ws b2 z : List Char}
    (hp : noOccB H2s p = true)
    (hbody : noOccB NLBs (b0 ++ GUARDs w1 w2 w3 ++ b1 ++ CONs x y ws ++ b2) = true)
    (hb0L : noOccB L1s b0 = true)
    (h1 : w1.all isWs = true) (h2 : w2.all isWs = true) (h3 : w3.all isWs = true)
    (hrestL : noOccB L1s (b1 ++ CONs x y ws ++ b2) = true)
    (hb0S : noOccB SCs b0 = true) (hb1S : noOccB SCs b1 = true)
    (hx : noOccB FNs x = true) (hy : noOccB TSs y = true) (hws : ws.all isWs = true)
    (hb2S : noOccB SCs b2 = true) (hz : noOccB H2s z = true) :
    stage2 (p ++ H2s ++ (b0 ++ GUARDs w1 w2 w3 ++ b1 ++ CONs x y ws ++ b2) ++ NLBs ++ z)
      = p ++ H2s ++ b0 ++ INJs ++ b1 ++ LKUPs ++ ws ++ RB1s ++ b2 ++ NLBs ++ z :=
  stage2_full hp hbody hb0L h1 h2 h3 hrestL hb0S hb1S hx hy hws hb2S hz

/-- Instantiation of `C1_construction_rewrite` at a realistic
`get_screenshots` body. -/
theorem C1_witness :
    stage2 (c1p ++ H2s ++
        (c1b0 ++ GUARDs c1w1 c1w2 c1w3 ++ c1b1 ++ CONs c1x c1y c1ws ++ c1b2) ++
        NLBs ++ c1z)
      = c1p ++ H2s ++ c1b0 ++ INJs ++ c1b1 ++ LKUPs ++ c1ws ++ RB1s ++ c1b2 ++
        NLBs ++ c1z :=
  C1_construction_rewrite (by decide) (by decide) (by decide) (by decide) (by decide)
    (by decide) (by decide) (by decide) (by decide) (by decide) (by decide) (by decide)
    (by decide) (by decide)

/-- Stage 1 on a buffer containing one struct definition: the insertion
of the tags declaration between the terminal attribute and the closing
delimiter, everything else unchanged. -/
theorem stage1_schema {p mid z : List Char}
    (hp : noOccB A1s p = true) (hmid : noOccB BCs mid = true)
    (hz : noOccB A1s z = true) :
    stage1 (p ++ A1s ++ mid ++ Bs ++ Cs ++ z) =
      p ++ A1s ++ mid ++ Bs ++ TAGDECLs ++ Cs ++ z := by
  unfold stage1
  simp only [List.append_assoc]
  rw [show Bs ++ (Cs ++ z) = BCs ++ z by simp [BCs, List.append_assoc]]
  rw [subScan_skip (fun i hi => m1_none (noOcc_app_false hp _ hi))]
  rw [subScan_match (app_ne_nil (by decide)) (m1_at hmid)
    (by
      have hA : 1 ≤ A1s.length := by decide
      omega)]
  rw [show (A1s ++ (mid ++ (BCs ++ z))).drop (A1s.length + mid.length + BCs.length) = z
    from by
    rw [show A1s ++ (mid ++ (BCs ++ z)) = (A1s ++ mid ++ BCs) ++ z by
      simp [List.append_assoc]]
    exact List.drop_left' (by simp only [List.length_append])]
  rw [subScan_id_of_noOcc (fun t ht => m1_none ht) (by decide) hz]
  simp [BCs, List.append_assoc]

/-- C2: on a buffer containing a `pub struct Screenshot {` definition whose
terminal attribute `pub timestamp: u64,` is immediately followed by the
closing `\n}`, stage 1 inserts exactly one `pub tags: Vec<String>,`
declaration immediately after the terminal attribute and before the
closing delimiter, with the rest of the buffer unchanged. -/
theorem C2_struct_injection {p mid z : List Char}
    (hp : noOccB A1s p = true) (hmid : noOccB BCs mid = true)
    (hz : noOccB A1s z = true) :
    stage1 (p ++ A1s ++ mid ++ Bs ++ Cs ++ z) =
      p ++ A1s ++ mid ++ Bs ++ TAGDECLs ++ Cs ++ z :=
  stage1_schema hp hmid hz

/-- Instantiation of `C2_struct_injection` at the minimal struct with
fields `a` and `b` and terminal `timestamp: u64`. -/
theorem C2_witness :
    stage1 (c2p ++ A1s ++ c2mid ++ Bs ++ Cs ++ c2z) =
      c2p ++ A1s ++ c2mid ++ Bs ++ TAGDECLs ++ Cs ++ c2z :=
  C2_struct_injection (by decide) (by decide) (by decide)

/-- C3: on a buffer where none of the expected patterns occur — no
`pub struct Screenshot {` header, no `get_screenshots` header, no
`pub fn save_screenshot_tags` marker, no anchor function, and no
`timestamp: now,` construction-site text — the full transformation is the
identity; pattern misses never raise (the embedding is a total function,
matching the script, where only I/O can fail). -/
theorem C3_pattern_miss_identity {c : List Char}
    (h1 : noOccB A1s c = true) (h2 : noOccB H2s c = true)
    (h3 : containsSub SAVEs c = false) (h4 : noOccB ANCHs c = true)
    (h5 : noOccB TNs c = true) :
    applyTags c = c := by
  unfold applyTags
  rw [show stage1 c = c from
    subScan_id_of_noOcc (fun t ht => m1_none ht) (by decide) h1]
  rw [show stage2 c = c from
    subScan_id_of_noOcc (fun t ht => m2_none ht) (by decide) h2]
  rw [show stage3 c = c from by
    unfold stage3
    rw [if_neg (by simp [h3])]
    exact replaceAll_id_of_none (by decide) (findLit_none_of_noOcc h4 (by decide))]
  rw [show stage4 c = c from subScan_id_of_none (m4_none_of_noTN h5)]
  exact stage4b_id c

/-- Instantiation of `C3_pattern_miss_identity` at a pattern-free buffer. -/
theorem C3_witness : applyTags c3w = c3w :=
  C3_pattern_miss_identity (by decide) (by decide) (by decide) (by decide) (by decide)

/-- One run on the two-anchor buffer: `str.replace` hits both anchor
occurrences and inserts the persistence function before each. -/
theorem c4_run1 : applyTags c4cex = SAVEINSs ++ (c4mid ++ (SAVEINSs ++ c4tb)) := by
  unfold applyTags
  rw [show stage1 c4cex = c4cex from
    subScan_id_of_noOcc (fun t ht => m1_none ht) (by decide) (noOccB_of_R (by decide))]
  rw [show stage2 c4cex = c4cex from
    subScan_id_of_noOcc (fun t ht => m2_none ht) (by decide) (noOccB_of_R (by decide))]
  rw [show stage3 c4cex = SAVEINSs ++ (c4mid ++ (SAVEINSs ++ c4tb)) from by
    unfold stage3
    rw [if_neg (by simp [show containsSub SAVEs c4cex = false from by decide])]
    rw [show c4cex = ANCHs ++ (c4mid ++ (ANCHs ++ c4tb)) from by
      unfold c4cex
      simp [List.append_assoc]]
    rw [replaceAll_head (by decide)]
    rw [replaceAll_single (by decide) (noOccB_of_R (by decide)) (by decide)]]
  rw [show stage4 (SAVEINSs ++ (c4mid ++ (SAVEINSs ++ c4tb))) =
      SAVEINSs ++ (c4mid ++ (SAVEINSs ++ c4tb)) from
    subScan_id_of_noOcc (fun t ht => m4_none ht) (by decide)
      (noOccB_append (noOccB_of_R (by decide))
        (noOccB_append (noOccB_of_R (by decide))
          (noOccB_append (noOccB_of_R (by decide)) (noOccB_of_R (by decide)))))]
  exact stage4b_id _

/-- The second run on the doubly-patched buffer changes nothing: the
marker is now present, and no other pattern matches. -/
theorem c4_run2 : applyTags (SAVEINSs ++ (c4mid ++ (SAVEINSs ++ c4tb)))
    = SAVEINSs ++ (c4mid ++ (SAVEINSs ++ c4tb)) := by
  have hA : noOccB A1s (SAVEINSs ++ (c4mid ++ (SAVEINSs ++ c4tb))) = true :=
    noOccB_append (noOccB_of_R (by decide))
      (noOccB_append (noOccB_of_R (by decide))
        (noOccB_append (noOccB_of_R (by decide)) (noOccB_of_R (by decide))))
  have hH : noOccB H2s (SAVEINSs ++ (c4mid ++ (SAVEINSs ++ c4tb))) = true :=
    noOccB_append (noOccB_of_R (by decide))
      (noOccB_append (noOccB_of_R (by decide))
        (noOccB_append (noOccB_of_R (by decide)) (noOccB_of_R (by decide))))
  have hO : noOccB OKAs (SAVEINSs ++ (c4mid ++ (SAVEINSs ++ c4tb))) = true :=
    noOccB_append (noOccB_of_R (by decide))
      (noOccB_append (noOccB_of_R (by decide))
        (noOccB_append (noOccB_of_R (by decide)) (noOccB_of_R (by decide))))
  unfold applyTags
  rw [show stage1 (SAVEINSs ++ (c4mid ++ (SAVEINSs ++ c4tb))) =
      SAVEINSs ++ (c4mid ++ (SAVEINSs ++ c4tb)) from
    subScan_id_of_noOcc (fun t ht => m1_none ht) (by decide) hA]
  rw [show stage2 (SAVEINSs ++ (c4mid ++ (SAVEINSs ++ c4tb))) =
      SAVEINSs ++ (c4mid ++ (SAVEINSs ++ c4tb)) from
    subScan_id_of_noOcc (fun t ht => m2_none ht) (by decide) hH]
  rw [show stage3 (SAVEINSs ++ (c4mid ++ (SAVEINSs ++ c4tb))) =
      SAVEINSs ++ (c4mid ++ (SAVEINSs ++ c4tb)) from
    stage3_guarded (by
      unfold containsSub
      exact findLit_isSome_extend (by decide))]
  rw [show stage4 (SAVEINSs ++ (c4mid ++ (SAVEINSs ++ c4tb))) =
      SAVEINSs ++ (c4mid ++ (SAVEINSs ++ c4tb)) from
    subScan_id_of_noOcc (fun t ht => m4_none ht) (by decide) hO]
  exact stage4b_id _

/-- C4 counterexample: a buffer in which the anchor occurs twice and the
marker is absent.  Already a single run inserts the persistence function
once per anchor occurrence, so running the full transformation twice
leaves two definitions of `save_screenshot_tags` — the claim's
"never produces two definitions" fails at this input. -/
theorem C4_counterexample :
    countOcc ANCHs c4cex = 2 ∧ containsSub SAVEs c4cex = false ∧
    countOcc SAVEs (applyTags (applyTags c4cex)) = 2 := by
  refine ⟨by decide, by decide, ?_⟩
  rw [c4_run1, c4_run2]
  have hS : SAVEs ≠ [] := by decide
  rw [countOcc_app_det hS (detB_of_R (by decide))]
  rw [show countOcc SAVEs SAVEINSs = 1 from by decide]
  rw [countOcc_app_noOcc hS (noOccB_of_R (by decide))]
  rw [countOcc_app_det hS (detB_of_R (by decide))]
  rw [show countOcc SAVEs SAVEINSs = 1 from by decide]
  rw [show countOcc SAVEs c4tb = 0 from by decide]

/-- C4 (amended): the insertion stage leaves every buffer that already
contains `pub fn save_screenshot_tags` unchanged, and the insertion stage
is idempotent — a repeated run inserts nothing further.  (What fails in
the original claim is only the consequence drawn from it: a single run
already inserts one copy per anchor occurrence, so a buffer with two
anchors ends with two definitions; see the counterexample.) -/
theorem C4_insertion_guard (c : List Char) :
    stage3 (stage3 c) = stage3 c ∧ (containsSub SAVEs c = true → stage3 c = c) := by
  constructor
  · by_cases hg : containsSub SAVEs c = true
    · rw [stage3_guarded hg]
      exact stage3_guarded hg
    · have hg' := bool_not_true hg
      have h3 : stage3 c = replaceAll ANCHs SAVEINSs c := by
        unfold stage3
        rw [if_neg (by simp [hg'])]
      cases hf : findLit ANCHs c with
      | none =>
        have hid : stage3 c = c := by
          rw [h3]
          exact replaceAll_id_of_none (by decide) hf
        rw [hid]
        exact hid
      | some k =>
        have hspec := findLit_some_spec hf
        have hc : c = c.take k ++ (ANCHs ++ (c.drop k).drop ANCHs.length) := by
          conv_lhs => rw [← List.take_append_drop k c, eq_append_of_ipo hspec.1]
        have hcont : containsSub SAVEs (stage3 c) = true := by
          rw [h3]
          rw [show replaceAll ANCHs SAVEINSs c =
            replaceAll ANCHs SAVEINSs
              (c.take k ++ (ANCHs ++ (c.drop k).drop ANCHs.length)) from by
            rw [← hc]]
          rw [replaceAll_skip ?hskip]
          case hskip =>
            intro i hi
            rw [← hc]
            apply hspec.2
            rw [List.length_take] at hi
            omega
          rw [replaceAll_head (by decide)]
          unfold containsSub
          apply findLit_isSome_app
          apply findLit_isSome_extend
          decide
        rw [stage3_guarded hcont]
  · intro hg
    exact stage3_guarded hg

/-- Instantiation of `C4_insertion_guard` at an already-patched buffer. -/
theorem C4_witness : stage3 (stage3 c4w) = stage3 c4w ∧ stage3 c4w = c4w :=
  ⟨(C4_insertion_guard c4w).1, (C4_insertion_guard c4w).2 (by decide)⟩

/-- Stage 4 on a buffer assembled from construction sites separated by
match-free gaps: every site receives the default initialization. -/
theorem stage4_sites (l : List (List Char × List Char × List Char))
    (t : List Char) (h : okH l t = true) : stage4 (asmOk l t) = asmOkT l t := by
  induction l with
  | nil =>
    unfold okH at h
    exact subScan_id_of_noOcc (fun s hs => m4_none hs) (by decide) h
  | cons gab rest ih =>
    obtain ⟨g, a, b⟩ := gab
    unfold okH at h
    simp only [Bool.and_eq_true] at h
    obtain ⟨⟨⟨⟨hg, ha⟩, hb⟩, hb2⟩, hrest⟩ := h
    show stage4 (g ++ OKSITEs a b ++ asmOk rest t) = _
    unfold stage4
    rw [show g ++ OKSITEs a b ++ asmOk rest t = g ++ (OKSITEs a b ++ asmOk rest t) by
      simp [List.append_assoc]]
    rw [subScan_skip (fun i hi => m4_none (noOcc_app_false hg _ hi))]
    rw [show OKSITEs a b ++ asmOk rest t =
      OKAs ++ (a ++ (TNs ++ (b ++ (RB2s ++ asmOk rest t)))) by
      simp [OKSITEs, List.append_assoc]]
    rw [subScan_match (app_ne_nil (by decide)) (m4_at ha hb2)
      (by
        have hO : 1 ≤ OKAs.length := by decide
        omega)]
    rw [show (OKAs ++ (a ++ (TNs ++ (b ++ (RB2s ++ asmOk rest t))))).take
        (OKAs.length + (a.length + TNs.length + b.length + RB2s.length)) =
        OKAs ++ (a ++ (TNs ++ (b ++ RB2s))) from by
      rw [show OKAs ++ (a ++ (TNs ++ (b ++ (RB2s ++ asmOk rest t)))) =
        (OKAs ++ (a ++ (TNs ++ (b ++ RB2s)))) ++ asmOk rest t by
        simp [List.append_assoc]]
      exact List.take_left' (by simp only [List.length_append]; omega)]
    rw [show (OKAs ++ (a ++ (TNs ++ (b ++ (RB2s ++ asmOk rest t))))).drop
        (OKAs.length + (a.length + TNs.length + b.length + RB2s.length)) =
        asmOk rest t from by
      rw [show OKAs ++ (a ++ (TNs ++ (b ++ (RB2s ++ asmOk rest t)))) =
        (OKAs ++ (a ++ (TNs ++ (b ++ RB2s)))) ++ asmOk rest t by
        simp [List.append_assoc]]
      exact List.drop_left' (by simp only [List.length_append]; omega)]
    rw [show replaceAll TNs (TNs ++ TINSs) (OKAs ++ (a ++ (TNs ++ (b ++ RB2s)))) =
      (OKAs ++ a) ++ ((TNs ++ TINSs) ++ (b ++ RB2s)) from by
      rw [show OKAs ++ (a ++ (TNs ++ (b ++ RB2s))) =
        (OKAs ++ a) ++ (TNs ++ (b ++ RB2s)) by simp [List.append_assoc]]
      exact replaceAll_single (by decide) (noOccB_append (by decide) ha)
        (findLit_none_of_noOcc (noOccB_append hb (by decide)) (by decide))]
    have ih2 : subScan m4 (fun g0 _ => replaceAll TNs (TNs ++ TINSs) g0) (asmOk rest t) =
        asmOkT rest t := ih hrest
    rw [ih2]
    rw [show asmOkT ((g, a, b) :: rest) t =
      g ++ (OKAs ++ a ++ TNs ++ TINSs ++ b ++ RB2s) ++ asmOkT rest t from rfl]
    simp [List.append_assoc]

/-- C5: stage 4 appends the default empty-sequence initialization
`tags: vec![],` immediately after the `timestamp: now,` field at every
`Ok(Screenshot { .. timestamp: now, .. })` construction site of the
buffer, unconditionally: the hypotheses carry no presence guard, so a
site whose remaining text already contains an initialization (as in the
witness) receives another one. -/
theorem C5_backfill_every_site (l : List (List Char × List Char × List Char))
    (t : List Char) (h : okH l t = true) : stage4 (asmOk l t) = asmOkT l t :=
  stage4_sites l t h

/-- Instantiation of `C5_backfill_every_site` at two sites, the second of
which already carries a `tags: vec![],` initialization and still receives
another (no presence guard). -/
theorem C5_witness : stage4 (asmOk c5sites c5t) = asmOkT c5sites c5t :=
  C5_backfill_every_site c5sites c5t (by decide)

/-- C6: the backfill stage is not idempotent.  One run on `c6cex` (a
capture function with one `Ok(Screenshot { .. timestamp: now, .. })`
site) adds one default initialization; a second full run on the
already-patched result inserts a second, duplicate `tags: vec![],` at the
same site. -/
theorem C6_backfill_not_idempotent :
    countOcc TINSs (applyTags c6cex) = 1 ∧
    countOcc TINSs (applyTags (applyTags c6cex)) = 2 := by
  decide

/-- C7 counterexample: inside `get_screenshots`, a construction whose
`path` field holds the expression `foo_bar` is rewritten — the lookup and
template do appear — but `foo_bar` does not survive anywhere in the
output: the template hard-codes `path: path_str`, so the original field
values of the construction are not preserved, refuting the claim. -/
theorem C7_counterexample :
    containsSub FOOs c7cex = true ∧
    containsSub FOOs (stage2 c7cex) = false ∧
    containsSub LKUPs (stage2 c7cex) = true := by
  decide

/-- C7 (amended): within the captured `get_screenshots` body, each matched
construction is replaced by the fixed lookup-plus-template text.  Only the
trailing whitespace group `ws` of the original construction is preserved;
the original text between the braces (`x` before `filename,` — e.g. a
`path:` field expression — and `y` before `timestamp,`) is discarded, the
template hard-coding `path: path_str` and adding `tags`. -/
theorem C7_template_rewrite {b0 x y ws b2 : List Char}
    (hL : noOccB L1s (b0 ++ CONs x y ws ++ b2) = true)
    (hb0 : noOccB SCs b0 = true) (hx : noOccB FNs x = true)
    (hy : noOccB TSs y = true) (hws : ws.all isWs = true)
    (hb2 : noOccB SCs b2 = true) :
    replaceGet (b0 ++ CONs x y ws ++ b2) = b0 ++ LKUPs ++ ws ++ RB1s ++ b2 := by
  unfold replaceGet
  rw [show sub1 (b0 ++ CONs x y ws ++ b2) = b0 ++ CONs x y ws ++ b2 from
    subScan_id_of_noOcc (fun t ht => mGuard_none ht) (by decide) hL]
  rw [show b0 ++ CONs x y ws ++ b2 = b0 ++ (CONs x y ws ++ b2) by
    simp [List.append_assoc]]
  rw [sub2_schema hb0 hx hy hws hb2]
  simp [List.append_assoc]

/-- Instantiation of `C7_template_rewrite`: the `x` part holds a
`path: path_str,` field expression that is discarded and re-created by the
template. -/
theorem C7_witness :
    replaceGet (c1b1 ++ CONs c1x c1y c1ws ++ c1b2) =
      c1b1 ++ LKUPs ++ c1ws ++ RB1s ++ c1b2 :=
  C7_template_rewrite (by decide) (by decide) (by decide) (by decide) (by decide)
    (by decide)

/-- C9: the injection text contains no match of the construction-site
pattern: whatever follows the injected preamble in a buffer, no
construction-site match starts at any position inside the injected text,
and the construction-rewrite pass leaves the injection text itself
unchanged — the two passes compose without interference. -/
theorem C9_injection_immune :
    (∀ z i, i < INJs.length → mCon ((INJs ++ z).drop i) = none) ∧
    sub2 INJs = INJs := by
  constructor
  · intro z i hi
    exact mCon_none (noOcc_app_false (by decide) z hi)
  · exact subScan_id_of_noOcc (fun t ht => mCon_none ht) (by decide) (by decide)

/-- Application of `C9_injection_immune` at the start of the injected
text. -/
theorem C9_witness : mCon ((INJs ++ []).drop 0) = none :=
  C9_injection_immune.1 [] 0 (by decide)

set_option maxHeartbeats 8000000

/-- First run, stage 1: the tags declaration is inserted into the struct. -/
theorem c10_stage1_run1 :
    stage1 c10wf = c10hd ++ H2s ++ c10body1 ++ NLBs ++ c10tl0 := by
  have hz1 : noOccB A1s (n10z0a ++ (H2s ++ (c10body1 ++ (NLBs ++ c10tl0)))) = true :=
    noOccB_append (noOccB_of_R (by decide))
      (noOccB_append (noOccB_of_R (by decide))
        (noOccB_append (noOccB_of_R (by decide))
          (noOccB_append (noOccB_of_R (by decide)) (noOccB_of_R (by decide)))))
  rw [show c10wf = n10g0 ++ A1s ++ n10mid ++ Bs ++ Cs ++
      (n10z0a ++ (H2s ++ (c10body1 ++ (NLBs ++ c10tl0)))) from by
    unfold c10wf
    simp [List.append_assoc]]
  rw [stage1_schema (noOccB_of_R (show noOccR A1s n10g0 = true by decide))
    (noOccB_of_R (show noOccR BCs n10mid = true by decide)) hz1]
  unfold c10hd
  simp [List.append_assoc]

/-- First run, stage 2: the guard becomes the preamble and the
construction becomes the lookup-plus-template text. -/
theorem c10_stage2_run1 :
    stage2 (c10hd ++ H2s ++ c10body1 ++ NLBs ++ c10tl0)
      = c10hd ++ H2s ++ c10body2 ++ NLBs ++ c10tl0 := by
  have hs2 := stage2_full
    (noOccB_of_R (show noOccR H2s c10hd = true by decide))
    (noOccB_of_R (show noOccR NLBs (n10b0 ++ GUARDs n10w1 n10w2 n10w3 ++ n10b1 ++
      CONs n10x n10y n10ws ++ n10b2) = true by decide))
    (noOccB_of_R (show noOccR L1s n10b0 = true by decide))
    (show n10w1.all isWs = true by decide)
    (show n10w2.all isWs = true by decide)
    (show n10w3.all isWs = true by decide)
    (noOccB_of_R (show noOccR L1s (n10b1 ++ CONs n10x n10y n10ws ++ n10b2) = true
      by decide))
    (noOccB_of_R (show noOccR SCs n10b0 = true by decide))
    (noOccB_of_R (show noOccR SCs n10b1 = true by decide))
    (noOccB_of_R (show noOccR FNs n10x = true by decide))
    (noOccB_of_R (show noOccR TSs n10y = true by decide))
    (show n10ws.all isWs = true by decide)
    (noOccB_of_R (show noOccR SCs n10b2 = true by decide))
    (noOccB_of_R (show noOccR H2s c10tl0 = true by decide))
  rw [show c10body1 = n10b0 ++ GUARDs n10w1 n10w2 n10w3 ++ n10b1 ++
    CONs n10x n10y n10ws ++ n10b2 from rfl]
  rw [hs2]
  rw [show c10body2 = n10b0 ++ INJs ++ n10b1 ++ LKUPs ++ n10ws ++ RB1s ++ n10b2
    from rfl]
  simp [List.append_assoc]

/-- First run, stage 3: the marker is absent, so the persistence function
is inserted before the anchor. -/
theorem c10_stage3_run1 :
    stage3 (c10hd ++ H2s ++ c10body2 ++ NLBs ++ c10tl0)
      = c10hd ++ H2s ++ c10body2 ++ NLBs ++ c10tlS := by
  have hpS : noOccB SAVEs ((c10hd ++ H2s) ++ (c10body2 ++ (NLBs ++ n10z2a))) = true :=
    noOccB_append (noOccB_of_R (by decide))
      (noOccB_append (noOccB_of_R (by decide))
        (noOccB_append (noOccB_of_R (by decide)) (noOccB_of_R (by decide))))
  have hpA : noOccB ANCHs ((c10hd ++ H2s) ++ (c10body2 ++ (NLBs ++ n10z2a))) = true :=
    noOccB_append (noOccB_of_R (by decide))
      (noOccB_append (noOccB_of_R (by decide))
        (noOccB_append (noOccB_of_R (by decide)) (noOccB_of_R (by decide))))
  have hzS : findLit SAVEs (n10z3a ++ (OKSITEs n10a4 n10b4 ++ n10z3b)) = none := by
    decide
  have hzA : findLit ANCHs (n10z3a ++ (OKSITEs n10a4 n10b4 ++ n10z3b)) = none := by
    decide
  rw [show c10hd ++ H2s ++ c10body2 ++ NLBs ++ c10tl0 =
      ((c10hd ++ H2s) ++ (c10body2 ++ (NLBs ++ n10z2a))) ++
        (ANCHs ++ (n10z3a ++ (OKSITEs n10a4 n10b4 ++ n10z3b))) from by
    unfold c10tl0
    simp [List.append_assoc]]
  rw [stage3_insert hpS hzS hpA hzA]
  unfold c10tlS
  simp [List.append_assoc]

/-- First run, stage 4: the capture site receives the default
initialization. -/
theorem c10_stage4_run1 :
    stage4 (c10hd ++ H2s ++ c10body2 ++ NLBs ++ c10tlS) = c10out1 := by
  have hok : okH [((c10hd ++ H2s) ++ (c10body2 ++ (NLBs ++ (n10z2a ++
      (SAVEINSs ++ n10z3a)))), n10a4, n10b4)] n10z3b = true := by
    simp only [okH, Bool.and_eq_true]
    refine ⟨⟨⟨⟨?_, by decide⟩, by decide⟩, by decide⟩, by decide⟩
    exact noOccB_append (noOccB_of_R (by decide))
      (noOccB_append (noOccB_of_R (by decide))
        (noOccB_append (noOccB_of_R (by decide))
          (noOccB_append (noOccB_of_R (by decide))
            (noOccB_append (noOccB_of_R (by decide)) (noOccB_of_R (by decide))))))
  have h4 := stage4_sites _ _ hok
  rw [show c10hd ++ H2s ++ c10body2 ++ NLBs ++ c10tlS =
      asmOk [((c10hd ++ H2s) ++ (c10body2 ++ (NLBs ++ (n10z2a ++
        (SAVEINSs ++ n10z3a)))), n10a4, n10b4)] n10z3b from by
    unfold c10tlS
    simp [asmOk, OKSITEs, List.append_assoc]]
  rw [h4]
  unfold c10out1 c10tl1
  simp [asmOkT, List.append_assoc]

/-- The first run maps the well-formed file to `c10out1`. -/
theorem c10_run1 : applyTags c10wf = c10out1 := by
  unfold applyTags
  rw [c10_stage1_run1, c10_stage2_run1, c10_stage3_run1, c10_stage4_run1,
    stage4b_id]

/-- Second run, stage 1: the terminal-attribute text is no longer followed
by the closing delimiter, so the struct pattern misses. -/
theorem c10_stage1_run2 : stage1 c10out1 = c10out1 := by
  have hBC : noOccB BCs c10out1 = true := by
    unfold c10out1
    exact noOccB_append
      (noOccB_append
        (noOccB_append
          (noOccB_append (noOccB_of_R (by decide)) (noOccB_of_R (by decide)))
          (noOccB_of_R (by decide)))
        (noOccB_of_R (by decide)))
      (noOccB_of_R (by decide))
  unfold stage1
  exact subScan_id_of_none (m1_none_noBC hBC)

/-- Second run, stage 2: the guard clause at the head of the first run
preamble matches again and a second preamble is injected; the construction
pattern finds no match in the patched body. -/
theorem c10_stage2_run2 :
    stage2 c10out1 = c10hd ++ H2s ++ c10body3 ++ NLBs ++ c10tl1 := by
  have hsplit2 : (n10b0 ++ NL4s) ++
      (INJs ++ (INJTAILs ++ n10b1 ++ LKUPs ++ n10ws ++ RB1s ++ n10b2))
      = (n10b0 ++ NL4s ++ INJs ++ INJTAILs ++ n10b1 ++ LKUPAs) ++
        (SCs ++ (LKUPBs ++ n10ws ++ RB1s ++ n10b2)) := by
    rw [show LKUPs = LKUPAs ++ (SCs ++ LKUPBs) from by decide]
    simp [List.append_assoc]
  have hU2 : noOccB SCs
      (n10b0 ++ NL4s ++ INJs ++ INJTAILs ++ n10b1 ++ LKUPAs) = true :=
    noOccB_append
      (noOccB_append
        (noOccB_append
          (noOccB_append
            (noOccB_append (noOccB_of_R (by decide)) (noOccB_of_R (by decide)))
            (noOccB_of_R (by decide)))
          (noOccB_of_R (by decide)))
        (noOccB_of_R (by decide)))
      (noOccB_of_R (by decide))
  have hstep := stage2_noCon c10hd (n10b0 ++ NL4s) NL4s NL8s NL4s
    (INJTAILs ++ n10b1 ++ LKUPs ++ n10ws ++ RB1s ++ n10b2) c10tl1
    (n10b0 ++ NL4s ++ INJs ++ INJTAILs ++ n10b1 ++ LKUPAs)
    (LKUPBs ++ n10ws ++ RB1s ++ n10b2)
    (noOccB_of_R (by decide)) (noOccB_of_R (by decide)) (noOccB_of_R (by decide))
    (by decide) (by decide) (by decide)
    (noOccB_of_R (by decide)) hsplit2 hU2 (by decide) (noOccB_of_R (by decide))
    (noOccB_of_R (by decide))
  rw [show c10out1 = c10hd ++ H2s ++ ((n10b0 ++ NL4s) ++ GUARDs NL4s NL8s NL4s ++
      (INJTAILs ++ n10b1 ++ LKUPs ++ n10ws ++ RB1s ++ n10b2)) ++ NLBs ++ c10tl1
      from by
    unfold c10out1 c10body2
    rw [show INJs = NL4s ++ GUARDs NL4s NL8s NL4s ++ INJTAILs from by decide]
    simp [List.append_assoc]]
  rw [hstep]
  rw [show c10body3 = (n10b0 ++ NL4s) ++ INJs ++
      (INJTAILs ++ n10b1 ++ LKUPs ++ n10ws ++ RB1s ++ n10b2) from by
    unfold c10body3
    simp [List.append_assoc]]

/-- Second run, stage 3: the marker is present, so the guard suppresses
the insertion. -/
theorem c10_stage3_run2 :
    stage3 (c10hd ++ H2s ++ c10body3 ++ NLBs ++ c10tl1)
      = c10hd ++ H2s ++ c10body3 ++ NLBs ++ c10tl1 := by
  apply stage3_guarded
  unfold containsSub
  rw [show c10hd ++ H2s ++ c10body3 ++ NLBs ++ c10tl1 =
      (c10hd ++ H2s ++ c10body3 ++ NLBs ++ n10z2a) ++
        (SAVECs ++ (NL1s ++ (ANCHs ++ (n10z3a ++ (OKAs ++ (n10a4 ++ (TNs ++
          (TINSs ++ (n10b4 ++ (RB2s ++ n10z3b)))))))))) from by
    unfold c10tl1 SAVEINSs
    simp [List.append_assoc]]
  exact findLit_isSome_app (findLit_isSome_extend (by decide))

/-- Second run, stage 4: the backfill carries no presence guard, so the
already-patched capture site receives a second default initialization. -/
theorem c10_stage4_run2 :
    stage4 (c10hd ++ H2s ++ c10body3 ++ NLBs ++ c10tl1) = c10out2 := by
  have hbody3 : noOccB OKAs c10body3 = true := by
    unfold c10body3
    exact noOccB_append
      (noOccB_append
        (noOccB_append
          (noOccB_append
            (noOccB_append
              (noOccB_append
                (noOccB_append
                  (noOccB_append (noOccB_of_R (by decide)) (noOccB_of_R (by decide)))
                  (noOccB_of_R (by decide)))
                (noOccB_of_R (by decide)))
              (noOccB_of_R (by decide)))
            (noOccB_of_R (by decide)))
          (noOccB_of_R (by decide)))
        (noOccB_of_R (by decide)))
      (noOccB_of_R (by decide))
  have hok : okH [((c10hd ++ H2s) ++ (c10body3 ++ (NLBs ++ (n10z2a ++
      (SAVEINSs ++ n10z3a)))), n10a4, TINSs ++ n10b4)] n10z3b = true := by
    simp only [okH, Bool.and_eq_true]
    refine ⟨⟨⟨⟨?_, by decide⟩, by decide⟩, by decide⟩, by decide⟩
    exact noOccB_append (noOccB_of_R (by decide))
      (noOccB_append hbody3
        (noOccB_append (noOccB_of_R (by decide))
          (noOccB_append (noOccB_of_R (by decide))
            (noOccB_append (noOccB_of_R (by decide)) (noOccB_of_R (by decide))))))
  have h4 := stage4_sites _ _ hok
  rw [show c10hd ++ H2s ++ c10body3 ++ NLBs ++ c10tl1 =
      asmOk [((c10hd ++ H2s) ++ (c10body3 ++ (NLBs ++ (n10z2a ++
        (SAVEINSs ++ n10z3a)))), n10a4, TINSs ++ n10b4)] n10z3b from by
    unfold c10tl1
    simp [asmOk, OKSITEs, List.append_assoc]]
  rw [h4]
  unfold c10out2
  simp [asmOkT, List.append_assoc]

/-- The second run maps `c10out1` to `c10out2`. -/
theorem c10_run2 : applyTags c10out1 = c10out2 := by
  unfold applyTags
  rw [c10_stage1_run2, c10_stage2_run2, c10_stage3_run2, c10_stage4_run2,
    stage4b_id]

/-- After one run the `all_tags`-loading preamble text occurs exactly
once. -/
theorem c10_count1 : countOcc MPs c10out1 = 1 := by
  have hMP : MPs ≠ [] := by decide
  unfold c10out1 c10body2 c10tl1
  simp only [List.append_assoc]
  rw [countOcc_app_noOcc hMP (noOccB_of_R (show noOccR MPs c10hd = true by decide))]
  rw [countOcc_app_noOcc hMP (noOccB_of_R (show noOccR MPs H2s = true by decide))]
  rw [countOcc_app_noOcc hMP (noOccB_of_R (show noOccR MPs n10b0 = true by decide))]
  rw [countOcc_app_det hMP (detB_of_R (show detR MPs INJs = true by decide))]
  rw [show countOcc MPs INJs = 1 from by decide]
  rw [countOcc_app_noOcc hMP (noOccB_of_R (show noOccR MPs n10b1 = true by decide))]
  rw [countOcc_app_noOcc hMP (noOccB_of_R (show noOccR MPs LKUPs = true by decide))]
  rw [countOcc_app_noOcc hMP (noOccB_of_R (show noOccR MPs n10ws = true by decide))]
  rw [countOcc_app_noOcc hMP (noOccB_of_R (show noOccR MPs RB1s = true by decide))]
  rw [countOcc_app_noOcc hMP (noOccB_of_R (show noOccR MPs n10b2 = true by decide))]
  rw [countOcc_app_noOcc hMP (noOccB_of_R (show noOccR MPs NLBs = true by decide))]
  rw [countOcc_app_noOcc hMP (noOccB_of_R (show noOccR MPs n10z2a = true by decide))]
  rw [countOcc_app_noOcc hMP (noOccB_of_R (show noOccR MPs SAVEINSs = true
    by decide))]
  rw [show countOcc MPs (n10z3a ++ (OKAs ++ (n10a4 ++ (TNs ++ (TINSs ++
    (n10b4 ++ (RB2s ++ n10z3b))))))) = 0 from by decide]

/-- After two runs the `all_tags`-loading preamble text occurs twice. -/
theorem c10_count2 : countOcc MPs c10out2 = 2 := by
  have hMP : MPs ≠ [] := by decide
  unfold c10out2 c10body3
  simp only [List.append_assoc]
  rw [countOcc_app_noOcc hMP (noOccB_of_R (show noOccR MPs c10hd = true by decide))]
  rw [countOcc_app_noOcc hMP (noOccB_of_R (show noOccR MPs H2s = true by decide))]
  rw [countOcc_app_noOcc hMP (noOccB_of_R (show noOccR MPs n10b0 = true by decide))]
  rw [countOcc_app_noOcc hMP (noOccB_of_R (show noOccR MPs NL4s = true by decide))]
  rw [countOcc_app_det hMP (detB_of_R (show detR MPs INJs = true by decide))]
  rw [show countOcc MPs INJs = 1 from by decide]
  rw [countOcc_app_det hMP (detB_of_R (show detR MPs INJTAILs = true by decide))]
  rw [show countOcc MPs INJTAILs = 1 from by decide]
  rw [countOcc_app_noOcc hMP (noOccB_of_R (show noOccR MPs n10b1 = true by decide))]
  rw [countOcc_app_noOcc hMP (noOccB_of_R (show noOccR MPs LKUPs = true by decide))]
  rw [countOcc_app_noOcc hMP (noOccB_of_R (show noOccR MPs n10ws = true by decide))]
  rw [countOcc_app_noOcc hMP (noOccB_of_R (show noOccR MPs RB1s = true by decide))]
  rw [countOcc_app_noOcc hMP (noOccB_of_R (show noOccR MPs n10b2 = true by decide))]
  rw [countOcc_app_noOcc hMP (noOccB_of_R (show noOccR MPs NLBs = true by decide))]
  rw [countOcc_app_noOcc hMP (noOccB_of_R (show noOccR MPs n10z2a = true by decide))]
  rw [countOcc_app_noOcc hMP (noOccB_of_R (show noOccR MPs SAVEINSs = true
    by decide))]
  rw [show countOcc MPs (n10z3a ++ (OKAs ++ (n10a4 ++ (TNs ++ (TINSs ++
    (TINSs ++ (n10b4 ++ (RB2s ++ n10z3b)))))))) = 0 from by decide]

/-- C8: on a not-yet-patched buffer whose stage-1/stage-2 image splits as
`p ++ anchor ++ z` with the anchor occurring exactly once and the marker
`pub fn save_screenshot_tags` absent, and whose stage-3 image decomposes
into backfill sites and gaps (`hsites`, `hok`; a buffer with no site is
the `l = []` case), one full run of the transformation places the new
definition (with its trailing newline) immediately before the anchor
function, then backfills the sites, and the final buffer contains exactly
one definition of `save_screenshot_tags`. -/
theorem C8_save_inserted_once (c p z t : List Char)
    (l : List (List Char × List Char × List Char))
    (h12 : stage2 (stage1 c) = p ++ (ANCHs ++ z))
    (hpA : noOccB ANCHs p = true) (hzA : findLit ANCHs z = none)
    (hpS : noOccB SAVEs p = true) (hzS : findLit SAVEs z = none)
    (hsites : p ++ (SAVEINSs ++ z) = asmOk l t)
    (hok : okH l t = true) (hS : okS l = true) :
    stage3 (stage2 (stage1 c)) = p ++ (SAVEINSs ++ z) ∧
    applyTags c = asmOkT l t ∧
    countOcc SAVEs (applyTags c) = 1 := by
  have hSne : SAVEs ≠ [] := by decide
  have h3 : stage3 (stage2 (stage1 c)) = p ++ (SAVEINSs ++ z) := by
    rw [h12]
    exact stage3_insert hpS hzS hpA hzA
  have hall : applyTags c = asmOkT l t := by
    unfold applyTags
    rw [h3, hsites]
    rw [stage4_sites l t hok]
    exact stage4b_id _
  refine ⟨h3, hall, ?_⟩
  rw [hall]
  rw [countOcc_saves_asmOkT l t hS]
  rw [← hsites]
  rw [countOcc_app_noOcc hSne hpS]
  rw [countOcc_app_det hSne (detB_of_R (by decide))]
  rw [show countOcc SAVEs SAVEINSs = 1 from by decide]
  rw [countOcc_zero_of_none hSne hzS]

/-- Instantiation of `C8_save_inserted_once` at the fully well-formed
target file `c10wf`: the struct, the `get_screenshots` function with its
guard and construction, the anchor function and one capture construction
site are all present; the single inserted definition lands immediately
before the anchor, and the stage-4 backfill of the capture site leaves
the marker count at one. -/
theorem C8_witness :
    stage3 (stage2 (stage1 c10wf)) =
      ((c10hd ++ H2s) ++ (c10body2 ++ (NLBs ++ n10z2a))) ++
        (SAVEINSs ++ (n10z3a ++ (OKSITEs n10a4 n10b4 ++ n10z3b))) ∧
    applyTags c10wf =
      asmOkT [((c10hd ++ H2s) ++ (c10body2 ++ (NLBs ++ (n10z2a ++
        (SAVEINSs ++ n10z3a)))), n10a4, n10b4)] n10z3b ∧
    countOcc SAVEs (applyTags c10wf) = 1 :=
  C8_save_inserted_once c10wf
    ((c10hd ++ H2s) ++ (c10body2 ++ (NLBs ++ n10z2a)))
    (n10z3a ++ (OKSITEs n10a4 n10b4 ++ n10z3b))
    n10z3b
    [((c10hd ++ H2s) ++ (c10body2 ++ (NLBs ++ (n10z2a ++ (SAVEINSs ++ n10z3a)))),
      n10a4, n10b4)]
    (by
      rw [c10_stage1_run1, c10_stage2_run1]
      unfold c10tl0
      simp [List.append_assoc])
    (noOccB_append (noOccB_of_R (by decide))
      (noOccB_append (noOccB_of_R (by decide))
        (noOccB_append (noOccB_of_R (by decide)) (noOccB_of_R (by decide)))))
    (by decide)
    (noOccB_append (noOccB_of_R (by decide))
      (noOccB_append (noOccB_of_R (by decide))
        (noOccB_append (noOccB_of_R (by decide)) (noOccB_of_R (by decide)))))
    (by decide)
    (by simp [asmOk, OKSITEs, List.append_assoc])
    (by
      simp only [okH, Bool.and_eq_true]
      refine ⟨⟨⟨⟨?_, by decide⟩, by decide⟩, by decide⟩, by decide⟩
      exact noOccB_append (noOccB_of_R (by decide))
        (noOccB_append (noOccB_of_R (by decide))
          (noOccB_append (noOccB_of_R (by decide))
            (noOccB_append (noOccB_of_R (by decide))
              (noOccB_append (noOccB_of_R (by decide)) (noOccB_of_R (by decide)))))))
    (by
      simp only [okS, Bool.and_eq_true]
      refine ⟨⟨⟨?_, by decide⟩, by decide⟩, trivial⟩
      exact detB_append (detB_of_R (by decide))
        (detB_append (detB_of_R (by decide))
          (detB_append (detB_of_R (by decide))
            (detB_append (detB_of_R (by decide))
              (detB_append (detB_of_R (by decide)) (detB_of_R (by decide)))))))

/-- C10: running the full transformation twice on a well-formed target
file duplicates the metadata-loading preamble inside `get_screenshots`:
the first run leaves exactly one copy of the `all_tags`-loading block,
and the second run matches the guard clause at the start of the first
run injection and inserts the sidecar-loading code a second time. -/
theorem C10_preamble_duplication :
    countOcc MPs (applyTags c10wf) = 1 ∧
    countOcc MPs (applyTags (applyTags c10wf)) = 2 := by
  refine ⟨?_, ?_⟩
  · rw [c10_run1]
    exact c10_count1
  · rw [c10_run1, c10_run2]
    exact c10_count2

end LibmalyApplyTags
